import Mathlib

/-!
# wrought: GitLab activity summariser (`main.go`)

A shallow embedding of `main.go` and a verification of its specification.

* Go strings are Lean `String`s (valid Unicode text); the text of a JSON document
  is a `List Char`.
* A Go `error` is its message; `Option GoError` is a Go `error` value, `none`
  being `nil`.
* A Go slice `[]*GitLabEvent` is `Option (List (Option GitLabEvent))`: the outer
  `none` is the nil slice, an inner `none` a nil pointer.
* Everything a run exchanges with its surroundings (standard output, files, the
  events API, the summarization API, the fatal logger) is recorded, in order, in
  a trace of `Effect`s; what the surroundings answer is given by a `World`.
* The functions of the libraries the program calls (`encoding/json`, `time`,
  `go-gitlab`, `resty`, `os`) are not part of `main.go`.  `encoding/json` is
  modelled for the one type the program uses it at (`[]*GitLabEvent`), and the
  RFC 3339 text of `time.Time` as package `time` writes and reads it (`goTime`).
  What the calls of the two clients return and what the file system does are
  fields of `World`; how `go-gitlab` resends a request (`sdkCall`) and when
  `resty` fills the result object (`restyPost`) is modelled where a property
  is about it.
-/

namespace Wrought

/-! ## JSON text: scanning -/

/-- The abstract syntax of a JSON document.  Numbers and strings keep the text
they were written with (`raw`: for a string the text between the quotes, escapes
not yet decoded), as do object keys. -/
inductive JSON where
  | null
  | bool (b : Bool)
  | num (raw : List Char)
  | str (raw : List Char)
  | arr (elems : List JSON)
  | obj (members : List (List Char × JSON))

/-- JSON white space: space, tab, line feed, carriage return. -/
def isSpace (c : Char) : Bool :=
  c = ' ' || c = '\t' || c = '\n' || c = '\r'

/-- Drop leading white space. -/
def skipSpace : List Char → List Char
  | [] => []
  | c :: cs => if isSpace c then skipSpace cs else c :: cs

/-- A decimal digit. -/
def isDigit (c : Char) : Bool :=
  48 ≤ c.toNat && c.toNat ≤ 57

/-- A hexadecimal digit, either case. -/
def isHex (c : Char) : Bool :=
  isDigit c || (97 ≤ c.toNat && c.toNat ≤ 102) || (65 ≤ c.toNat && c.toNat ≤ 70)

/-- The characters that may follow a backslash besides `u`. -/
def isSimpleEscape (c : Char) : Bool :=
  c = '"' || c = '\\' || c = '/' || c = 'b' || c = 'f' || c = 'n' || c = 'r' || c = 't'

/-- Scan a string literal whose opening quote has been read: the text up to the
closing quote, and what follows the closing quote.  `none` when the literal is
not closed, holds a control character or a malformed escape. -/
def scanString : List Char → Option (List Char × List Char)
  | [] => none
  | c :: rest =>
    if c = '"' then some ([], rest)
    else if c = '\\' then
      match rest with
      | [] => none
      | e :: rest2 =>
        if e = 'u' then
          match rest2 with
          | h1 :: h2 :: h3 :: h4 :: rest3 =>
            if isHex h1 && isHex h2 && isHex h3 && isHex h4 then
              (scanString rest3).map
                (fun p => ('\\' :: 'u' :: h1 :: h2 :: h3 :: h4 :: p.1, p.2))
            else none
          | _ => none
        else if isSimpleEscape e then
          (scanString rest2).map (fun p => ('\\' :: e :: p.1, p.2))
        else none
    else if c.toNat < 32 then none
    else (scanString rest).map (fun p => (c :: p.1, p.2))

/-- The leading digits of a text and what follows them. -/
def spanDigits : List Char → List Char × List Char
  | [] => ([], [])
  | c :: cs =>
    if isDigit c then ((spanDigits cs).1.cons c, (spanDigits cs).2) else ([], c :: cs)

/-- The optional exponent of a number literal (`e` or `E`, an optional sign, at
least one digit), appended to `acc`. -/
def scanExponent (acc : List Char) : List Char → Option (List Char × List Char)
  | e :: cs =>
    if e = 'e' || e = 'E' then
      match cs with
      | s :: ds =>
        if s = '+' || s = '-' then
          (if (spanDigits ds).1 = [] then none
           else some (acc ++ e :: s :: (spanDigits ds).1, (spanDigits ds).2))
        else
          (if (spanDigits cs).1 = [] then none
           else some (acc ++ e :: (spanDigits cs).1, (spanDigits cs).2))
      | [] => none
    else some (acc, e :: cs)
  | [] => some (acc, [])

/-- The optional fraction (`.` and at least one digit) and exponent of a number
literal, appended to `acc`. -/
def scanFraction (acc : List Char) : List Char → Option (List Char × List Char)
  | d :: cs =>
    if d = '.' then
      (if (spanDigits cs).1 = [] then none
       else scanExponent (acc ++ d :: (spanDigits cs).1) (spanDigits cs).2)
    else scanExponent acc (d :: cs)
  | [] => some (acc, [])

/-- The integer part of a number literal: `0`, or a non-zero digit followed by
digits; then fraction and exponent. -/
def scanUnsigned (acc : List Char) : List Char → Option (List Char × List Char)
  | [] => none
  | c :: cs =>
    if c = '0' then scanFraction (acc ++ [c]) cs
    else if isDigit c then scanFraction (acc ++ c :: (spanDigits cs).1) (spanDigits cs).2
    else none

/-- Scan a number literal: its text and what follows it. -/
def scanNumber : List Char → Option (List Char × List Char)
  | [] => none
  | c :: cs => if c = '-' then scanUnsigned [c] cs else scanUnsigned [] (c :: cs)

/-- Remove the literal `lit` from the front of a text. -/
def dropLiteral : List Char → List Char → Option (List Char)
  | [], cs => some cs
  | _ :: _, [] => none
  | l :: ls, c :: cs => if l = c then dropLiteral ls cs else none

/-- The deepest nesting of arrays and objects the scanner of `encoding/json`
accepts (`maxNestingDepth`). -/
def maxNestingDepth : Nat := 10000

mutual
/-- Parse one JSON value, leading white space allowed: the value and the text
after it.  The first argument bounds the steps of the parser; `depth` is the
number of arrays and objects that are open around the value, and an array or
object that would be open at a depth above `maxNestingDepth` is refused, as
the scanner of `encoding/json` refuses it ("exceeded max depth"). -/
def parseValue : Nat → Nat → List Char → Option (JSON × List Char)
  | 0, _, _ => none
  | fuel + 1, depth, cs =>
    match skipSpace cs with
    | [] => none
    | c :: rest =>
      if c = '{' then
        if maxNestingDepth ≤ depth then none
        else
          match skipSpace rest with
          | [] => none
          | d :: rest2 =>
            if d = '}' then some (JSON.obj [], rest2)
            else (parseMembers fuel (depth + 1) (d :: rest2)).map (fun p => (JSON.obj p.1, p.2))
      else if c = '[' then
        if maxNestingDepth ≤ depth then none
        else
          match skipSpace rest with
          | [] => none
          | d :: rest2 =>
            if d = ']' then some (JSON.arr [], rest2)
            else (parseElems fuel (depth + 1) (d :: rest2)).map (fun p => (JSON.arr p.1, p.2))
      else if c = '"' then (scanString rest).map (fun p => (JSON.str p.1, p.2))
      else if c = '-' || isDigit c then
        (scanNumber (c :: rest)).map (fun p => (JSON.num p.1, p.2))
      else if c = 'n' then
        (dropLiteral ['u', 'l', 'l'] rest).map (fun r => (JSON.null, r))
      else if c = 't' then
        (dropLiteral ['r', 'u', 'e'] rest).map (fun r => (JSON.bool true, r))
      else if c = 'f' then
        (dropLiteral ['a', 'l', 's', 'e'] rest).map (fun r => (JSON.bool false, r))
      else none
/-- Parse the elements of a non-empty array up to and including its `]`. -/
def parseElems : Nat → Nat → List Char → Option (List JSON × List Char)
  | 0, _, _ => none
  | fuel + 1, depth, cs =>
    match parseValue fuel depth cs with
    | none => none
    | some (v, rest) =>
      match skipSpace rest with
      | [] => none
      | d :: rest2 =>
        if d = ',' then (parseElems fuel depth rest2).map (fun p => (v :: p.1, p.2))
        else if d = ']' then some ([v], rest2)
        else none
/-- Parse the members of a non-empty object up to and including its `}`. -/
def parseMembers : Nat → Nat → List Char → Option (List (List Char × JSON) × List Char)
  | 0, _, _ => none
  | fuel + 1, depth, cs =>
    match skipSpace cs with
    | [] => none
    | q :: rest =>
      if q = '"' then
        match scanString rest with
        | none => none
        | some (key, rest2) =>
          match skipSpace rest2 with
          | [] => none
          | d :: rest3 =>
            if d = ':' then
              match parseValue fuel depth rest3 with
              | none => none
              | some (v, rest4) =>
                match skipSpace rest4 with
                | [] => none
                | s :: rest5 =>
                  if s = ',' then
                    (parseMembers fuel depth rest5).map (fun p => ((key, v) :: p.1, p.2))
                  else if s = '}' then some ([(key, v)], rest5)
                  else none
            else none
      else none
end

/-- Parse a whole document: one value, with only white space around it. -/
def parseJSON (data : List Char) : Option JSON :=
  match parseValue (2 * data.length + 2) 0 data with
  | none => none
  | some (v, rest) => if skipSpace rest = [] then some v else none

/-! ## JSON text: printing -/

/-- A line break followed by the indentation of nesting depth `d` (two spaces a
level, no line prefix), as `json.MarshalIndent(v, "", "  ")` writes it. -/
def newline (d : Nat) : List Char :=
  '\n' :: List.replicate (2 * d) ' '

mutual
/-- The compact text of a document, as `json.Marshal` writes it. -/
def JSON.compact : JSON → List Char
  | .null => ['n', 'u', 'l', 'l']
  | .bool b => if b then ['t', 'r', 'u', 'e'] else ['f', 'a', 'l', 's', 'e']
  | .num raw => raw
  | .str raw => '"' :: raw ++ ['"']
  | .arr elems => '[' :: compactElems elems ++ [']']
  | .obj members => '{' :: compactMembers members ++ ['}']
/-- The elements of an array, separated by commas. -/
def compactElems : List JSON → List Char
  | [] => []
  | x :: xs =>
    match xs with
    | [] => x.compact
    | _ :: _ => x.compact ++ ',' :: compactElems xs
/-- The members of an object, separated by commas. -/
def compactMembers : List (List Char × JSON) → List Char
  | [] => []
  | (k, v) :: ms =>
    match ms with
    | [] => '"' :: k ++ '"' :: ':' :: v.compact
    | _ :: _ => '"' :: k ++ '"' :: ':' :: v.compact ++ ',' :: compactMembers ms
end

mutual
/-- The indented text of a document at nesting depth `d`, as `json.Indent`
writes it: one element or member a line, a space after each colon, empty arrays
and objects closed at once. -/
def JSON.indent (d : Nat) : JSON → List Char
  | .null => ['n', 'u', 'l', 'l']
  | .bool b => if b then ['t', 'r', 'u', 'e'] else ['f', 'a', 'l', 's', 'e']
  | .num raw => raw
  | .str raw => '"' :: raw ++ ['"']
  | .arr elems =>
    match elems with
    | [] => ['[', ']']
    | _ :: _ => '[' :: newline (d + 1) ++ indentElems (d + 1) elems ++ newline d ++ [']']
  | .obj members =>
    match members with
    | [] => ['{', '}']
    | _ :: _ => '{' :: newline (d + 1) ++ indentMembers (d + 1) members ++ newline d ++ ['}']
/-- The elements of an array, one a line at depth `d`. -/
def indentElems (d : Nat) : List JSON → List Char
  | [] => []
  | x :: xs =>
    match xs with
    | [] => x.indent d
    | _ :: _ => x.indent d ++ ',' :: newline d ++ indentElems d xs
/-- The members of an object, one a line at depth `d`. -/
def indentMembers (d : Nat) : List (List Char × JSON) → List Char
  | [] => []
  | (k, v) :: ms =>
    match ms with
    | [] => '"' :: k ++ '"' :: ':' :: ' ' :: v.indent d
    | _ :: _ => '"' :: k ++ '"' :: ':' :: ' ' :: v.indent d ++ ',' :: newline d ++ indentMembers d ms
end

/-! ## JSON text: strings and integers -/

/-- The lower-case hexadecimal digit of `n < 16`. -/
def hexDigit (n : Nat) : Char :=
  if n < 10 then Char.ofNat (48 + n) else Char.ofNat (87 + n)

/-- How `encoding/json` writes one character of a string (HTML escaping on, as
`json.Marshal` and `json.MarshalIndent` have it): `\\`, `\"`, `\b`, `\f`, `\n`,
`\r`, `\t`; `\u00XX` for the other control characters and for `<`, `>`, `&`;
`\u2028` and `\u2029` for U+2028 and U+2029; any other character as it is. -/
def escapeChar (c : Char) : List Char :=
  if c = '\\' then ['\\', '\\']
  else if c = '"' then ['\\', '"']
  else if c = '\x08' then ['\\', 'b']
  else if c = '\x0c' then ['\\', 'f']
  else if c = '\n' then ['\\', 'n']
  else if c = '\r' then ['\\', 'r']
  else if c = '\t' then ['\\', 't']
  else if c.toNat < 32 || c = '<' || c = '>' || c = '&' then
    ['\\', 'u', '0', '0', hexDigit (c.toNat / 16), hexDigit (c.toNat % 16)]
  else if c.toNat = 0x2028 then ['\\', 'u', '2', '0', '2', '8']
  else if c.toNat = 0x2029 then ['\\', 'u', '2', '0', '2', '9']
  else [c]

/-- The text `encoding/json` writes between the quotes for a string. -/
def escapeString : List Char → List Char
  | [] => []
  | c :: cs => escapeChar c ++ escapeString cs

/-- The value of a hexadecimal digit. -/
def hexValue (c : Char) : Nat :=
  if isDigit c then c.toNat - 48
  else if 97 ≤ c.toNat && c.toNat ≤ 102 then c.toNat - 87
  else c.toNat - 55

/-- The value of four hexadecimal digits. -/
def hex4 (h1 h2 h3 h4 : Char) : Nat :=
  ((hexValue h1 * 16 + hexValue h2) * 16 + hexValue h3) * 16 + hexValue h4

/-- The character a one-letter escape stands for. -/
def simpleEscape (e : Char) : Char :=
  if e = 'b' then '\x08'
  else if e = 'f' then '\x0c'
  else if e = 'n' then '\n'
  else if e = 'r' then '\r'
  else if e = 't' then '\t'
  else e

/-- The Unicode replacement character. -/
def replacementChar : Char := Char.ofNat 0xFFFD

/-- What is written for a `\u` escape that is still waiting for its partner: a
surrogate with no partner becomes U+FFFD. -/
def flushPending : Option Nat → List Char
  | none => []
  | some _ => [replacementChar]

/-- Decode the text between the quotes of a string literal, as the decoder of
`encoding/json` does: escapes are replaced by their characters, a `\u` pair of
surrogates by the character it encodes, a surrogate without partner by U+FFFD.
`pending` is the surrogate read by the `\u` escape just before, if any. -/
def unquoteAux : Option Nat → List Char → Option (List Char)
  | pending, [] => some (flushPending pending)
  | pending, c :: rest =>
    if c = '\\' then
      match rest with
      | [] => none
      | e :: rest2 =>
        if e = 'u' then
          match rest2 with
          | h1 :: h2 :: h3 :: h4 :: rest3 =>
            if isHex h1 && isHex h2 && isHex h3 && isHex h4 then
              match pending with
              | some hi =>
                if hi < 0xDC00 && 0xDC00 ≤ hex4 h1 h2 h3 h4 && hex4 h1 h2 h3 h4 < 0xE000 then
                  (unquoteAux none rest3).map
                    (List.cons (Char.ofNat
                      ((hi - 0xD800) * 1024 + (hex4 h1 h2 h3 h4 - 0xDC00) + 0x10000)))
                else if 0xD800 ≤ hex4 h1 h2 h3 h4 && hex4 h1 h2 h3 h4 < 0xE000 then
                  (unquoteAux (some (hex4 h1 h2 h3 h4)) rest3).map (List.cons replacementChar)
                else
                  (unquoteAux none rest3).map
                    (fun out => replacementChar :: Char.ofNat (hex4 h1 h2 h3 h4) :: out)
              | none =>
                if 0xD800 ≤ hex4 h1 h2 h3 h4 && hex4 h1 h2 h3 h4 < 0xE000 then
                  unquoteAux (some (hex4 h1 h2 h3 h4)) rest3
                else (unquoteAux none rest3).map (List.cons (Char.ofNat (hex4 h1 h2 h3 h4)))
            else none
          | _ => none
        else if isSimpleEscape e then
          (unquoteAux none rest2).map (fun out => flushPending pending ++ simpleEscape e :: out)
        else none
    else if c = '"' || c.toNat < 32 then none
    else (unquoteAux none rest).map (fun out => flushPending pending ++ c :: out)

/-- Decode the text between the quotes of a string literal. -/
def unquote (raw : List Char) : Option (List Char) := unquoteAux none raw

/-- The decimal digit `d < 10` as a character. -/
def digitChar (d : Nat) : Char := Char.ofNat (48 + d)

/-- Decimal digits of `n` in front of `acc`; the first argument bounds the
number of digits. -/
def formatNatAux : Nat → Nat → List Char → List Char
  | 0, _, acc => acc
  | fuel + 1, n, acc =>
    if n < 10 then digitChar n :: acc
    else formatNatAux fuel (n / 10) (digitChar (n % 10) :: acc)

/-- The decimal text of a natural number. -/
def formatNat (n : Nat) : List Char := formatNatAux (n + 1) n []

/-- The decimal text of an integer (`%d`, and a JSON integer). -/
def formatInt : Int → List Char
  | Int.ofNat n => formatNat n
  | Int.negSucc n => '-' :: formatNat (n + 1)

/-- The number a text of decimal digits stands for. -/
def digitsValue (cs : List Char) : Nat :=
  cs.foldl (fun acc c => acc * 10 + (c.toNat - 48)) 0

/-- The least and the greatest Go `int` (64 bits). -/
def minInt64 : Int := -9223372036854775808

/-- The greatest Go `int` (64 bits). -/
def maxInt64 : Int := 9223372036854775807

/-- The integer a JSON number literal stands for when read into a Go `int`, as
`strconv.ParseInt(raw, 10, 64)`: an optional minus sign and digits only (no
fraction, no exponent), within 64 bits. -/
def parseInt64 (raw : List Char) : Option Int :=
  match raw with
  | [] => none
  | c :: cs =>
    if c = '-' then
      (if cs ≠ [] ∧ cs.all isDigit = true ∧ minInt64 ≤ -(digitsValue cs : Int) then
        some (-(digitsValue cs : Int)) else none)
    else
      (if (c :: cs).all isDigit = true ∧ (digitsValue (c :: cs) : Int) ≤ maxInt64 then
        some (digitsValue (c :: cs) : Int) else none)

/-! ## Data model (`main.go`, lines 23-41, and the types of the libraries) -/

/-- A Go `error`, by its message. -/
abbrev GoError := String

/-- A `time.Time` by what it shows: the date and the clock reading in its zone,
and the offset of that zone from UTC in seconds.  Go keeps an instant and a
location and computes these from them.  The program never looks inside one;
only the JSON encoding does. -/
structure Time where
  year : Int
  month : Nat
  day : Nat
  hour : Nat
  minute : Nat
  second : Nat
  nanosecond : Nat
  zoneOffset : Int
deriving DecidableEq, Repr

/-- A `gitlab.ISOTime`, the date type of the `-start` and `-end` flags. -/
structure ISOTime where
  time : Time
deriving DecidableEq, Repr

/-- `GitLabEvent` (lines 24-29). -/
structure GitLabEvent where
  ID : Int
  Action : String
  Target : String
  CreatedAt : Option Time
deriving DecidableEq, Repr

/-- A Go slice `[]*GitLabEvent`: `none` is the nil slice, an element `none` a nil
pointer. -/
abbrev Events := Option (List (Option GitLabEvent))

/-- Go's `len` of a slice. -/
def Events.len : Events → Nat
  | none => 0
  | some es => es.length

/-- The message of a choice of `SummaryResponse` (lines 34-36). -/
structure Message where
  Content : String
deriving DecidableEq, Repr

/-- A choice of `SummaryResponse` (lines 33-37). -/
structure Choice where
  Message : Message
deriving DecidableEq, Repr

/-- The error part of `SummaryResponse` (lines 38-40). -/
structure ResponseError where
  Message : String
deriving DecidableEq, Repr

/-- `SummaryResponse` (lines 32-41). -/
structure SummaryResponse where
  Choices : List Choice
  Error : ResponseError
deriving DecidableEq, Repr

/-- A record of the events API, `gitlab.ContributionEvent`, with the fields the
program reads and some it does not. -/
structure ContributionEvent where
  ID : Int
  Title : String
  ProjectID : Int
  ActionName : String
  TargetID : Int
  TargetType : String
  AuthorID : Int
  TargetTitle : String
  CreatedAt : Option Time
  AuthorUsername : String
deriving DecidableEq, Repr

/-- The pagination data of `gitlab.Response`. -/
structure Response where
  TotalItems : Int
  TotalPages : Int
  ItemsPerPage : Int
  CurrentPage : Int
  NextPage : Int
  PreviousPage : Int
deriving DecidableEq, Repr

/-- `gitlab.ListContributionEventsOptions` with its embedded `ListOptions`;
`Page = 0` is Go's zero value: no page is named and the server answers with
its default page. -/
structure ListContributionEventsOptions where
  Page : Int
  PerPage : Int
  After : Option ISOTime
  Before : Option ISOTime
deriving DecidableEq, Repr

/-- What a successful call of `ListCurrentUserContributionEvents` returns: the
records of the page (each a non-nil `*gitlab.ContributionEvent`) and the
response with its pagination data. -/
structure EventsPage where
  userEvents : List ContributionEvent
  resp : Response
deriving DecidableEq, Repr

/-- A `gitlab.Client`: the token and base URL it was made with. -/
structure Client where
  token : String
  baseURL : String
deriving DecidableEq, Repr

/-- The request `summarizeEvents` posts (lines 212-223). -/
structure ChatRequest where
  url : String
  contentType : String
  authorization : String
  model : String
  messages : List (String × String)
  maxTokens : Nat
  temperature : String
deriving DecidableEq, Repr

/-- What `Post` returns (line 212): the result object of line 222, which `resty`
fills from the body of some answers only (`restyPost`), the response as `%v`
prints it, and the error. -/
structure PostResult where
  result : SummaryResponse
  text : String
  err : Option GoError
deriving DecidableEq, Repr

/-- The JSON text form of `time.Time`: its `MarshalJSON` and `UnmarshalJSON`. -/
structure TimeCodec where
  MarshalJSON : Time → Except GoError (List Char)
  UnmarshalJSON : List Char → Except GoError Time

/-! ## The JSON text of a `time.Time` (package `time`) -/

/-- Whether a year is a leap year (`isLeap`). -/
def isLeap (year : Int) : Bool :=
  year % 4 = 0 && (year % 100 ≠ 0 || year % 400 = 0)

/-- The number of days of a month (`daysIn`). -/
def daysIn (month : Nat) (year : Int) : Nat :=
  if month = 2 then (if isLeap year then 29 else 28)
  else if month = 4 ∨ month = 6 ∨ month = 9 ∨ month = 11 then 30
  else 31

/-- What every `time.Time` shows: a month from 1 to 12, a day of that month, an
hour below 24, a minute and a second below 60, less than a second of
nanoseconds. -/
def Time.wellFormed (t : Time) : Bool :=
  decide (1 ≤ t.month) && decide (t.month ≤ 12) && decide (1 ≤ t.day) &&
    decide (t.day ≤ daysIn t.month t.year) && decide (t.hour < 24) && decide (t.minute < 60) &&
    decide (t.second < 60) && decide (t.nanosecond < 1000000000)

/-- The zero `time.Time`: January 1 of the year 1, 00:00:00 UTC. -/
def zeroTime : Time :=
  { year := 1, month := 1, day := 1, hour := 0, minute := 0, second := 0, nanosecond := 0,
    zoneOffset := 0 }

/-- A number below 100 in two digits (`appendInt(b, n, 2)`). -/
def twoDigits (n : Nat) : List Char :=
  [digitChar (n / 10 % 10), digitChar (n % 10)]

/-- A number below 10000 in four digits (`appendInt(b, n, 4)`). -/
def fourDigits (n : Nat) : List Char :=
  [digitChar (n / 1000 % 10), digitChar (n / 100 % 10), digitChar (n / 10 % 10),
   digitChar (n % 10)]

/-- A number below 1000000000 in nine digits (`appendInt(b, n, 9)`). -/
def nineDigits (n : Nat) : List Char :=
  [digitChar (n / 100000000 % 10), digitChar (n / 10000000 % 10), digitChar (n / 1000000 % 10),
   digitChar (n / 100000 % 10), digitChar (n / 10000 % 10), digitChar (n / 1000 % 10),
   digitChar (n / 100 % 10), digitChar (n / 10 % 10), digitChar (n % 10)]

/-- A text without the zeros at its end. -/
def trimZeros (ds : List Char) : List Char :=
  (ds.reverse.dropWhile (fun c => c = '0')).reverse

/-- The fraction of a second as RFC 3339 with nanoseconds writes it
(`appendNano` for the layout `.999999999`): nothing for zero, and otherwise a
point and the nine digits without the zeros at their end. -/
def formatFraction (nanosecond : Nat) : List Char :=
  if nanosecond = 0 then [] else '.' :: trimZeros (nineDigits nanosecond)

/-- The zone as RFC 3339 writes it: `Z` for the offset zero, and otherwise a
sign and the hours and minutes of the offset, its seconds cut off. -/
def formatZone (offset : Int) : List Char :=
  if offset = 0 then ['Z']
  else
    (if offset < 0 ∧ offset.natAbs / 60 ≠ 0 then '-' else '+') ::
      (twoDigits (offset.natAbs / 60 / 60) ++ ':' :: twoDigits (offset.natAbs / 60 % 60))

/-- The RFC 3339 text of a time whose year is from 0 to 9999
(`appendFormatRFC3339` with nanoseconds). -/
def formatRFC3339 (t : Time) : List Char :=
  fourDigits t.year.toNat ++ '-' :: (twoDigits t.month ++ '-' :: (twoDigits t.day ++ 'T' ::
    (twoDigits t.hour ++ ':' :: (twoDigits t.minute ++ ':' :: (twoDigits t.second ++
      (formatFraction t.nanosecond ++ formatZone t.zoneOffset))))))

/-- `Time.MarshalJSON`: the RFC 3339 text in quotes; an error for a year outside
0..9999 and for a zone offset of 24 hours or more. -/
def timeMarshalJSON (t : Time) : Except GoError (List Char) :=
  if t.year < 0 ∨ 9999 < t.year then
    .error "Time.MarshalJSON: year outside of range [0,9999]"
  else if t.zoneOffset ≠ 0 ∧ 24 ≤ t.zoneOffset.natAbs / 60 / 60 then
    .error "Time.MarshalJSON: timezone hour outside of range [0,23]"
  else .ok ('"' :: formatRFC3339 t ++ ['"'])

/-- A field of digits read as a number that must lie between `lo` and `hi`
(`parseUint` in `parseRFC3339`). -/
def digitsIn (lo hi : Nat) (ds : List Char) : Option Nat :=
  if ds.all isDigit = true ∧ lo ≤ digitsValue ds ∧ digitsValue ds ≤ hi then some (digitsValue ds)
  else none

/-- The nanoseconds a text of fraction digits stands for (`parseNanoseconds`):
the first nine digits count. -/
def nanoseconds (ds : List Char) : Nat :=
  digitsValue (ds.take 9) * 10 ^ (9 - (ds.take 9).length)

/-- The optional fraction of a second, a point and at least one digit: the
nanoseconds and the text after the fraction. -/
def parseFraction : List Char → Nat × List Char
  | c :: d :: rest =>
    if c = '.' ∧ isDigit d = true then
      (nanoseconds (spanDigits (d :: rest)).1, (spanDigits (d :: rest)).2)
    else (0, c :: d :: rest)
  | s => (0, s)

/-- The zone of an RFC 3339 text, which ends the text: `Z`, or a sign, two digits
of hours up to 23, a colon and two digits of minutes; the offset in seconds. -/
def parseZone (s : List Char) : Option Int :=
  if s = ['Z'] then some 0
  else
    match s with
    | [sign, h1, h2, colon, m1, m2] =>
      match digitsIn 0 23 [h1, h2], digitsIn 0 59 [m1, m2] with
      | some hr, some mm =>
        if (sign = '-' ∨ sign = '+') ∧ colon = ':' then
          some (if sign = '-' then -(((hr * 60 + mm) * 60 : Nat) : Int)
                else (((hr * 60 + mm) * 60 : Nat) : Int))
        else none
      | _, _ => none
    | _ => none

/-- Read an RFC 3339 text (`parseRFC3339`): four digits of year, two each of
month, day, hour, minute and second with their separators, each field in its
range and the day one of the month, then the optional fraction and the zone. -/
def parseRFC3339 : List Char → Option Time
  | y1 :: y2 :: y3 :: y4 :: a :: m1 :: m2 :: b :: d1 :: d2 :: tt :: h1 :: h2 :: c1 :: n1 :: n2 ::
      c2 :: s1 :: s2 :: rest =>
    match digitsIn 0 9999 [y1, y2, y3, y4], digitsIn 1 12 [m1, m2], digitsIn 0 23 [h1, h2],
      digitsIn 0 59 [n1, n2], digitsIn 0 59 [s1, s2] with
    | some year, some month, some hour, some minute, some second =>
      match digitsIn 1 (daysIn month year) [d1, d2] with
      | some day =>
        if a = '-' ∧ b = '-' ∧ tt = 'T' ∧ c1 = ':' ∧ c2 = ':' then
          match parseZone (parseFraction rest).2 with
          | some offset =>
            some { year := year, month := month, day := day, hour := hour, minute := minute,
                   second := second, nanosecond := (parseFraction rest).1, zoneOffset := offset }
          | none => none
        else none
      | none => none
    | _, _, _, _, _ => none
  | _ => none

/-- `Time.UnmarshalJSON`, called on a new `time.Time`: the text `null` leaves the
zero time; any other text must be an RFC 3339 text in quotes.  The texts read
are those `parseRFC3339` reads.  The few other forms that only the general
`time.Parse` lets through (an hour of one digit, a comma before the fraction)
are refused here, and the message of an error is shortened; `main` does not
print it (line 89). -/
def timeUnmarshalJSON (text : List Char) : Except GoError Time :=
  if text = ['n', 'u', 'l', 'l'] then .ok zeroTime
  else
    match text with
    | q :: rest =>
      if q = '"' ∧ rest.getLast? = some '"' then
        match parseRFC3339 rest.dropLast with
        | some t => .ok t
        | none => .error ("parsing time " ++ String.mk text)
      else .error "Time.UnmarshalJSON: input is not a JSON string"
    | [] => .error "Time.UnmarshalJSON: input is not a JSON string"

/-- The JSON text form of `time.Time` in Go. -/
def goTime : TimeCodec :=
  { MarshalJSON := timeMarshalJSON, UnmarshalJSON := timeUnmarshalJSON }

/-- Whether a time has an RFC 3339 text that stands for it: its year is from 0
to 9999 and its zone offset is a whole number of minutes, less than 24 hours. -/
def Time.hasJSONForm (t : Time) : Bool :=
  decide (0 ≤ t.year) && decide (t.year ≤ 9999) && decide (t.zoneOffset.natAbs % 60 = 0) &&
    decide (t.zoneOffset.natAbs < 86400)

/-! ## `encoding/json` at type `[]*GitLabEvent` -/

/-- The characters `encoding/json` escapes when it copies the output of a
`MarshalJSON` method: `<`, `>`, `&`, U+2028 and U+2029. -/
def htmlEscapeRaw : List Char → List Char
  | [] => []
  | c :: cs =>
    if c = '<' || c = '>' || c = '&' then
      '\\' :: 'u' :: '0' :: '0' :: hexDigit (c.toNat / 16) :: hexDigit (c.toNat % 16)
        :: htmlEscapeRaw cs
    else if c.toNat = 0x2028 then '\\' :: 'u' :: '2' :: '0' :: '2' :: '8' :: htmlEscapeRaw cs
    else if c.toNat = 0x2029 then '\\' :: 'u' :: '2' :: '0' :: '2' :: '9' :: htmlEscapeRaw cs
    else c :: htmlEscapeRaw cs

mutual
/-- A document with the strings and keys HTML-escaped. -/
def JSON.htmlEscape : JSON → JSON
  | .null => .null
  | .bool b => .bool b
  | .num raw => .num raw
  | .str raw => .str (htmlEscapeRaw raw)
  | .arr elems => .arr (htmlEscapeElems elems)
  | .obj members => .obj (htmlEscapeMembers members)
/-- The elements of an array, HTML-escaped. -/
def htmlEscapeElems : List JSON → List JSON
  | [] => []
  | x :: xs => x.htmlEscape :: htmlEscapeElems xs
/-- The members of an object, HTML-escaped. -/
def htmlEscapeMembers : List (List Char × JSON) → List (List Char × JSON)
  | [] => []
  | (k, v) :: ms => (htmlEscapeRaw k, v.htmlEscape) :: htmlEscapeMembers ms
end

/-- Encode a `time.Time` through its `MarshalJSON`: the encoder fails when the
method fails or returns text that is not JSON, and otherwise writes that text
compacted and HTML-escaped. -/
def marshalTime (tc : TimeCodec) (t : Time) : Except GoError JSON :=
  match tc.MarshalJSON t with
  | .error err => .error ("json: error calling MarshalJSON for type *time.Time: " ++ err)
  | .ok text =>
    match parseJSON text with
    | none => .error "json: error calling MarshalJSON for type *time.Time: invalid JSON"
    | some v => .ok v.htmlEscape

/-- Encode the `created_at` field, a `*time.Time`: `null` for a nil pointer. -/
def marshalCreatedAt (tc : TimeCodec) : Option Time → Except GoError JSON
  | none => .ok JSON.null
  | some t => marshalTime tc t

/-- The JSON object of a `GitLabEvent` by its struct tags (lines 25-28), fields
in the order of declaration; `created` is the encoded `created_at`. -/
def eventObject (e : GitLabEvent) (created : JSON) : JSON :=
  JSON.obj
    [ (['i', 'd'], JSON.num (formatInt e.ID)),
      ("action_name".toList, JSON.str (escapeString e.Action.toList)),
      ("target_title".toList, JSON.str (escapeString e.Target.toList)),
      ("created_at".toList, created) ]

/-- Encode one `GitLabEvent`; it fails when its `created_at` cannot be encoded. -/
def marshalEvent (tc : TimeCodec) (e : GitLabEvent) : Except GoError JSON :=
  match marshalCreatedAt tc e.CreatedAt with
  | .error err => .error err
  | .ok created => .ok (eventObject e created)

/-- Encode one element, a `*GitLabEvent`: `null` for a nil pointer. -/
def marshalElem (tc : TimeCodec) : Option GitLabEvent → Except GoError JSON
  | none => .ok JSON.null
  | some e => marshalEvent tc e

/-- Encode the elements of a slice, stopping at the first error. -/
def marshalElems (tc : TimeCodec) : List (Option GitLabEvent) → Except GoError (List JSON)
  | [] => .ok []
  | e :: es =>
    match marshalElem tc e with
    | .error err => .error err
    | .ok j =>
      match marshalElems tc es with
      | .error err => .error err
      | .ok js => .ok (j :: js)

/-- Encode a slice `[]*GitLabEvent`: `null` for the nil slice. -/
def marshalEvents (tc : TimeCodec) : Events → Except GoError JSON
  | none => .ok JSON.null
  | some es =>
    match marshalElems tc es with
    | .error err => .error err
    | .ok js => .ok (JSON.arr js)

/-- The text `json.Marshal(events)` returns. -/
def jsonMarshal (tc : TimeCodec) (events : Events) : Except GoError (List Char) :=
  match marshalEvents tc events with
  | .error err => .error err
  | .ok j => .ok j.compact

/-- The text `json.MarshalIndent(events, "", "  ")` returns. -/
def jsonMarshalIndent (tc : TimeCodec) (events : Events) : Except GoError (List Char) :=
  match marshalEvents tc events with
  | .error err => .error err
  | .ok j => .ok (j.indent 0)

/-- ASCII lower case of a character. -/
def lowerASCII (c : Char) : Char :=
  if 65 ≤ c.toNat && c.toNat ≤ 90 then Char.ofNat (c.toNat + 32) else c

/-- Whether an object key names the field tagged `name` (a lower-case ASCII
name without `k` or `s`): the decoder matches keys without regard to case. -/
def keyIs (name : List Char) (key : List Char) : Bool :=
  key.map lowerASCII = name

/-- Store one member of a JSON object into a `GitLabEvent`; `none` when the
value does not fit the field.  A `null` leaves a field that is not a pointer
as it is and sets a pointer to nil; a key that names no field is skipped.  A
value for `created_at` that is not `null` is handed to `UnmarshalJSON` as text
(a string with its quotes and its escapes as written, an array or object in
compact form). -/
def setField (tc : TimeCodec) (e : GitLabEvent) (key : List Char) (v : JSON) :
    Option GitLabEvent :=
  if keyIs ['i', 'd'] key then
    match v with
    | .null => some e
    | .num raw => (parseInt64 raw).map (fun i => { e with ID := i })
    | _ => none
  else if keyIs "action_name".toList key then
    match v with
    | .null => some e
    | .str raw => (unquote raw).map (fun s => { e with Action := String.mk s })
    | _ => none
  else if keyIs "target_title".toList key then
    match v with
    | .null => some e
    | .str raw => (unquote raw).map (fun s => { e with Target := String.mk s })
    | _ => none
  else if keyIs "created_at".toList key then
    match v with
    | .null => some { e with CreatedAt := none }
    | _ =>
      match tc.UnmarshalJSON v.compact with
      | .error _ => none
      | .ok t => some { e with CreatedAt := some t }
  else some e

/-- Store the members of a JSON object, in order, into a `GitLabEvent`. -/
def decodeMembers (tc : TimeCodec) : GitLabEvent → List (List Char × JSON) → Option GitLabEvent
  | e, [] => some e
  | e, (k, v) :: ms =>
    match unquote k with
    | none => none
    | some key =>
      match setField tc e key v with
      | none => none
      | some e2 => decodeMembers tc e2 ms

/-- Decode one element into a `*GitLabEvent`: `null` gives a nil pointer, an
object a new event that starts from Go's zero value. -/
def decodeElem (tc : TimeCodec) : JSON → Option (Option GitLabEvent)
  | .null => some none
  | .obj members =>
    (decodeMembers tc { ID := 0, Action := "", Target := "", CreatedAt := none } members).map some
  | _ => none

/-- Decode the elements of an array. -/
def decodeElems (tc : TimeCodec) : List JSON → Option (List (Option GitLabEvent))
  | [] => some []
  | x :: xs =>
    match decodeElem tc x with
    | none => none
    | some e =>
      match decodeElems tc xs with
      | none => none
      | some es => some (e :: es)

/-- Decode a document into a nil `[]*GitLabEvent`: `null` leaves the slice nil,
an array fills it. -/
def decodeEvents (tc : TimeCodec) : JSON → Option Events
  | .null => some none
  | .arr elems => (decodeElems tc elems).map some
  | _ => none

/-- The outcome of `json.Unmarshal(data, &events)` with `events` nil (line 87). -/
def jsonUnmarshal (tc : TimeCodec) (data : List Char) : Except GoError Events :=
  match parseJSON data with
  | none => .error "json: invalid JSON text"
  | some j =>
    match decodeEvents tc j with
    | none => .error "json: cannot unmarshal into Go value of type []*main.GitLabEvent"
    | some events => .ok events

/-! ## The surroundings of a run -/

/-- A call of one of the program's own functions, with its arguments. -/
inductive Call where
  | fetchGitLabEvents (startDate endDate : ISOTime)
  | saveEventsToFile (events : Events) (filename : String)
  | summarizeEvents (events : Events) (count : Int)
deriving DecidableEq, Repr

/-- What a run does that can be seen from outside, and the calls of its own
functions. -/
inductive Effect where
  /-- `fmt.Printf`, `fmt.Println`: text on standard output. -/
  | stdout (text : String)
  /-- `log.Fatal`, `log.Fatalf`: the message on standard error, then exit status 1. -/
  | fatal (msg : String)
  /-- `os.ReadFile`. -/
  | readFile (name : String)
  /-- `os.WriteFile(name, data, 0644)`. -/
  | writeFile (name : String) (data : String)
  /-- One call of `client.Events.ListCurrentUserContributionEvents`: the request
  it makes of the events API.  The client may send that request more than once
  (`sdkCall`). -/
  | listEvents (client : Client) (opts : ListContributionEventsOptions)
  /-- The request to the summarization API. -/
  | post (req : ChatRequest)
  /-- Entry into one of the program's functions. -/
  | call (c : Call)
deriving DecidableEq, Repr

/-- The surroundings of one run: the environment variables read at start-up
(lines 17-21) and what the libraries and the remote services answer.
`listEvents n client opts` is what the call of the SDK with the request `opts`
returns when `n` calls were made before it in this run; `time` is the JSON text
form of `time.Time`, which in Go is `goTime`. -/
structure World where
  gitlabToken : String
  openaiAPIKey : String
  gitlabDomain : String
  parseISOTime : String → Except GoError ISOTime
  newClient : String → String → Except GoError Client
  listEvents : Nat → Client → ListContributionEventsOptions → Except GoError EventsPage
  readFile : String → Except GoError String
  writeFile : String → String → Option GoError
  post : ChatRequest → PostResult
  time : TimeCodec

/-- The command-line flags after `flag.Parse()` (lines 44-58). -/
structure Flags where
  startDateStr : String
  endDateStr : String
  gitlabUser : String
  eventsFile : String
  count : Int
deriving DecidableEq, Repr

/-- The effects of a piece of the program and the value it returns. -/
structure Step (α : Type) where
  trace : List Effect
  value : α

/-- How a process ends. -/
inductive Exit where
  | success
  | failure
deriving DecidableEq, Repr

/-- A run of `main`: its effects, and how it ended; `exit = none` when the run
is still fetching pages after the number of requests it was followed for. -/
structure Run where
  trace : List Effect
  exit : Option Exit
deriving DecidableEq, Repr

/-- `log.Fatal` after the effects `trace`. -/
def fatal (trace : List Effect) (msg : String) : Run :=
  { trace := trace ++ [Effect.fatal msg], exit := some Exit.failure }

/-- `strings.HasPrefix`. -/
def hasPrefix (s pre : String) : Bool :=
  pre.toList.isPrefixOf s.toList

/-! ## `fetchGitLabEvents` (lines 132-176) -/

/-- The conversion of a record in the loop body (lines 160-165). -/
def toGitLabEvent (e : ContributionEvent) : GitLabEvent :=
  { ID := e.ID, Action := e.ActionName, Target := e.TargetTitle, CreatedAt := e.CreatedAt }

/-- The `for` loop of lines 153-173, followed for at most `fuel` requests: `n`
requests were made before, `opts` is the next request, `events` the slice so
far.  The value is `none` when the loop is still running after `fuel`
requests, and otherwise the pair the function returns. -/
def fetchLoop (w : World) (client : Client) :
    Nat → Nat → ListContributionEventsOptions → List (Option GitLabEvent) →
      Step (Option (Events × Option GoError))
  | 0, _, _, _ => { trace := [], value := none }
  | fuel + 1, n, opts, events =>
    match w.listEvents n client opts with
    | .error err => { trace := [Effect.listEvents client opts], value := some (none, some err) }
    | .ok page =>
      if page.resp.CurrentPage ≥ page.resp.TotalPages then
        { trace := [Effect.listEvents client opts],
          value := some
            (some (events ++ page.userEvents.map (fun e => some (toGitLabEvent e))), none) }
      else
        { trace := Effect.listEvents client opts ::
            (fetchLoop w client fuel (n + 1) { opts with Page := page.resp.NextPage }
              (events ++ page.userEvents.map (fun e => some (toGitLabEvent e)))).trace,
          value :=
            (fetchLoop w client fuel (n + 1) { opts with Page := page.resp.NextPage }
              (events ++ page.userEvents.map (fun e => some (toGitLabEvent e)))).value }

/-- The options of the first request (lines 145-151). -/
def initialOptions (startDate endDate : ISOTime) : ListContributionEventsOptions :=
  { Page := 0, PerPage := 100, After := some startDate, Before := some endDate }

/-- `fetchGitLabEvents`, followed for at most `fuel` requests. -/
def fetchGitLabEvents (w : World) (startDate endDate : ISOTime) (fuel : Nat) :
    Step (Option (Events × Option GoError)) :=
  match w.newClient w.gitlabToken (w.gitlabDomain ++ "/api/v4") with
  | .error err =>
    { trace := [Effect.call (Call.fetchGitLabEvents startDate endDate)],
      value := some (none, some ("failed to create gitlab client: " ++ err)) }
  | .ok client =>
    { trace := Effect.call (Call.fetchGitLabEvents startDate endDate) ::
        (fetchLoop w client fuel 0 (initialOptions startDate endDate) []).trace,
      value := (fetchLoop w client fuel 0 (initialOptions startDate endDate) []).value }

/-! ## `saveEventsToFile` (lines 179-186) -/

/-- `saveEventsToFile`: the error it returns, `none` for nil. -/
def saveEventsToFile (w : World) (events : Events) (filename : String) :
    Step (Option GoError) :=
  match jsonMarshalIndent w.time events with
  | .error err =>
    { trace := [Effect.call (Call.saveEventsToFile events filename)], value := some err }
  | .ok data =>
    { trace := [Effect.call (Call.saveEventsToFile events filename),
                Effect.writeFile filename (String.mk data)],
      value := w.writeFile filename (String.mk data) }

/-! ## `summarizeEvents` (lines 189-239) -/

/-- The prompt of lines 197-209; the `\n` before the event data stands in a raw
string literal and is a backslash and an `n`. -/
def promptText (count : Int) (eventData : List Char) : String :=
  "Summarize the following GitLab user's events in " ++ String.mk (formatInt count) ++
  "\nbullet points mostly of about ten words or less in terse, abbreviated human-sounding tone.\n\nNo periods at the end of each line, each bullet point starts with a past-tense verb, e.g. 'Pushed\nbug fixes for... Engaged in discussions about... etc'.\n\nInclude the number of Merge Requests, Epics and Issues worked, opened, closed,\nand version numbers upgraded to, the nature of code changes, pipeline runs. Do\nnot mention branch or MR deletions.\n\nInclude small inconsistencies in capitalization, punctuation or abbreviations to\nmake it look like a person wrote it, each bullet point should have varied\nstructure, some longer ones with commas, some shorter ones without:\\n" ++
  String.mk eventData

/-- The request of lines 212-223. -/
def chatRequest (w : World) (prompt : String) : ChatRequest :=
  { url := "https://api.openai.com/v1/chat/completions",
    contentType := "application/json",
    authorization := "Bearer " ++ w.openaiAPIKey,
    model := "gpt-4o-2024-08-06",
    messages := [("system", prompt)],
    maxTokens := 150,
    temperature := "0.7" }

/-- `summarizeEvents`: the string and the error it returns. -/
def summarizeEvents (w : World) (events : Events) (count : Int) :
    Step (String × Option GoError) :=
  match jsonMarshal w.time events with
  | .error err =>
    { trace := [Effect.call (Call.summarizeEvents events count)], value := ("", some err) }
  | .ok eventData =>
    { trace := [Effect.call (Call.summarizeEvents events count),
                Effect.post (chatRequest w (promptText count eventData))],
      value :=
        match (w.post (chatRequest w (promptText count eventData))).err with
        | some err => ("", some err)
        | none =>
          if (w.post (chatRequest w (promptText count eventData))).result.Error.Message ≠ "" then
            ((w.post (chatRequest w (promptText count eventData))).result.Error.Message,
              (w.post (chatRequest w (promptText count eventData))).err)
          else
            match (w.post (chatRequest w (promptText count eventData))).result.Choices with
            | [] => ("", some (w.post (chatRequest w (promptText count eventData))).text)
            | choice :: _ => (choice.Message.Content, none) }

/-! ## `main` (lines 43-113) -/

/-- Lines 105-112: summarize `events` and print the summary, after the effects
`trace`. -/
def summarizeAndPrint (w : World) (f : Flags) (trace : List Effect) (events : Events) : Run :=
  match (summarizeEvents w events f.count).value with
  | (_, some err) =>
    fatal
      (trace ++
        Effect.stdout
          ("Summarizing " ++ String.mk (formatNat events.len) ++ " event(s) using ChatGPT...\n")
        :: (summarizeEvents w events f.count).trace)
      ("Error summarizing events: " ++ err)
  | (summary, none) =>
    { trace :=
        trace ++
          Effect.stdout
            ("Summarizing " ++ String.mk (formatNat events.len) ++ " event(s) using ChatGPT...\n")
          :: (summarizeEvents w events f.count).trace ++
            [Effect.stdout ("\nGitlab Events for user " ++ f.gitlabUser ++ ":\n" ++ summary ++ "\n")],
      exit := some Exit.success }

/-- The name of the events file (line 98). -/
def fileName (f : Flags) : String :=
  "gitlab_events." ++ f.startDateStr ++ "_" ++ f.endDateStr ++ ".json"

/-- `main` from line 60 on, with the fetch loop followed for at most `fuel`
requests. -/
def main (w : World) (f : Flags) (fuel : Nat) : Run :=
  if w.gitlabToken = "" ∨ w.openaiAPIKey = "" ∨ w.gitlabDomain = "" then
    fatal [] "Please set GITLAB_DOMAIN, GITLAB_TOKEN and OPENAI_API_KEY environment variables"
  else if ¬ hasPrefix w.gitlabDomain "http" = true then
    fatal [] "Environment variable GITLAB_DOMAIN must start with 'http'"
  else
    match w.parseISOTime f.startDateStr with
    | .error err => fatal [] ("Invalid start date: " ++ err)
    | .ok startDate =>
      match w.parseISOTime f.endDateStr with
      | .error err => fatal [] ("Invalid end date: " ++ err)
      | .ok endDate =>
        if f.eventsFile ≠ "" then
          match w.readFile f.eventsFile with
          | .error _ =>
            fatal
              [Effect.stdout ("Fetching user events data from file '" ++ f.eventsFile ++ "'...\n"),
               Effect.readFile f.eventsFile]
              ("Failed to read file " ++ f.eventsFile ++ "\n")
          | .ok data =>
            match jsonUnmarshal w.time data.toList with
            | .error _ =>
              fatal
                [Effect.stdout ("Fetching user events data from file '" ++ f.eventsFile ++ "'...\n"),
                 Effect.readFile f.eventsFile]
                ("Failed to unmarshal JSON in file " ++ f.eventsFile ++ "\n")
            | .ok events =>
              summarizeAndPrint w f
                [Effect.stdout ("Fetching user events data from file '" ++ f.eventsFile ++ "'...\n"),
                 Effect.readFile f.eventsFile]
                events
        else
          match (fetchGitLabEvents w startDate endDate fuel).value with
          | none =>
            { trace := Effect.stdout "Fetching user events data from GitLab...\n" ::
                (fetchGitLabEvents w startDate endDate fuel).trace,
              exit := none }
          | some (_, some err) =>
            fatal
              (Effect.stdout "Fetching user events data from GitLab...\n" ::
                (fetchGitLabEvents w startDate endDate fuel).trace)
              ("Error fetching GitLab events: " ++ err)
          | some (events, none) =>
            match (saveEventsToFile w events (fileName f)).value with
            | some err =>
              fatal
                (Effect.stdout "Fetching user events data from GitLab...\n" ::
                  (fetchGitLabEvents w startDate endDate fuel).trace ++
                  Effect.stdout "Save events to JSON file...\n" ::
                  (saveEventsToFile w events (fileName f)).trace)
                ("Error saving events to file: " ++ err)
            | none =>
              summarizeAndPrint w f
                (Effect.stdout "Fetching user events data from GitLab...\n" ::
                  (fetchGitLabEvents w startDate endDate fuel).trace ++
                  Effect.stdout "Save events to JSON file...\n" ::
                  (saveEventsToFile w events (fileName f)).trace)
                events

/-! ## The client of the events API (`go-gitlab`) -/

/-- What comes back for one HTTP request to the events API: an answer, with its
status code, the page `go-gitlab` decodes from it when it accepts the status
and the error it reports for it when it does not; or no answer, with the error
of the transport. -/
inductive WireAnswer where
  | answer (status : Nat) (page : EventsPage) (err : GoError)
  | noAnswer (err : GoError)
deriving DecidableEq, Repr

/-- The events API as a server: what comes back for the request `opts` when it
is sent for the `attempt`-th time within one call of the SDK, counted from 0. -/
abbrev Server := ListContributionEventsOptions → Nat → WireAnswer

/-- How often the client that `gitlab.NewClient` builds sends a request again
(its `RetryMax`); line 133 passes no option that changes it. -/
def retryMax : Nat := 5

/-- Whether the client sends the request again (`retryHTTPCheck`): after an
answer of status 429 or 5xx, not after an error of the transport. -/
def WireAnswer.retried : WireAnswer → Bool
  | .answer status _ _ => status = 429 || 500 ≤ status
  | .noAnswer _ => false

/-- What a call of the SDK returns when this is the last thing that came back
(`CheckResponse`): the page for a status it accepts, an error otherwise. -/
def WireAnswer.outcome : WireAnswer → Except GoError EventsPage
  | .answer status page err =>
    if status = 200 ∨ status = 201 ∨ status = 202 ∨ status = 204 ∨ status = 304 then .ok page
    else .error err
  | .noAnswer err => .error err

/-- One call of `ListCurrentUserContributionEvents` against a server, after
`attempt` sendings of its request and with `retries` more allowed: how many
HTTP requests the call has sent when it returns, and what it returns.  The
request is sent again while the answer is one that is retried; the last answer
decides the outcome. -/
def sdkCall (server : Server) (opts : ListContributionEventsOptions) :
    Nat → Nat → Nat × Except GoError EventsPage
  | 0, attempt => (attempt + 1, (server opts attempt).outcome)
  | retries + 1, attempt =>
    if (server opts attempt).retried then sdkCall server opts retries (attempt + 1)
    else (attempt + 1, (server opts attempt).outcome)

/-- The surroundings `w` with the events API `server` behind the client of line
133: a call of the SDK returns what the client makes of the server's answers. -/
def World.withServer (w : World) (server : Server) : World :=
  { w with listEvents := fun _ _ opts => (sdkCall server opts retryMax 0).2 }

/-- The HTTP requests to the events API `server` behind the effects of a run, in
the order they are sent: every call of the SDK stands for the sendings of its
request. -/
def wireRequests (server : Server) : List Effect → List ListContributionEventsOptions
  | [] => []
  | Effect.listEvents _ opts :: rest =>
    List.replicate (sdkCall server opts retryMax 0).1 opts ++ wireRequests server rest
  | _ :: rest => wireRequests server rest

/-! ## The client of the summarization API (`resty`) -/

/-- An answer of the summarization API as `resty` receives it: the status code,
whether the `Content-Type` names JSON, the body (as `%v` prints the response:
without white space around it), and what `json.Unmarshal` makes of the body at
the type `SummaryResponse`. -/
structure ChatAnswer where
  status : Nat
  isJSON : Bool
  body : String
  decoded : Except GoError SummaryResponse

/-- What `Post` returns for an answer that arrived (`parseResponseBody` of
`resty`).  The request of lines 212-223 sets a result object (`SetResult`) and
no error object (`SetError`): the body is decoded, into the result object, when
the status is from 200 to 299 (other than 204) and the content is JSON, and an
error of that decoding is the error of `Post`; after any other answer the
result object is still the empty `SummaryResponse` of line 222, and there is no
error. -/
def restyPost (a : ChatAnswer) : PostResult :=
  if a.isJSON = true ∧ 200 ≤ a.status ∧ a.status ≤ 299 ∧ a.status ≠ 204 then
    match a.decoded with
    | .ok result => { result := result, text := a.body, err := none }
    | .error err =>
      { result := { Choices := [], Error := { Message := "" } }, text := a.body, err := some err }
  else { result := { Choices := [], Error := { Message := "" } }, text := a.body, err := none }

/-! ## Notions used to state the properties -/

/-- The request that follows the responses `earlier`, when `first` was the first
request: `first` with the page number set to the `NextPage` of the last
response; `first` itself when there was no response yet. -/
def requestAfter (first : ListContributionEventsOptions) (earlier : List EventsPage) :
    ListContributionEventsOptions :=
  match earlier.getLast? with
  | none => first
  | some p => { first with Page := p.resp.NextPage }

/-- The requests that follow each proper initial part of `pages` and `pages`
itself, as effects: `pages.length + 1` requests. -/
def requestsFor (client : Client) (first : ListContributionEventsOptions)
    (pages : List EventsPage) : List Effect :=
  (List.range (pages.length + 1)).map
    (fun i => Effect.listEvents client (requestAfter first (pages.take i)))

/-- Whether an effect saves the events file or belongs to the summarizer: a file
write, a request to the summarization API, or a call of `saveEventsToFile` or
`summarizeEvents`. -/
def Effect.savesOrSummarizes : Effect → Bool
  | Effect.writeFile _ _ => true
  | Effect.post _ => true
  | Effect.call (Call.saveEventsToFile _ _) => true
  | Effect.call (Call.summarizeEvents _ _) => true
  | _ => false

/-- The effects of a run in file mode up to the reading of the file (lines
82-83). -/
def fileModeStart (f : Flags) : List Effect :=
  [Effect.stdout ("Fetching user events data from file '" ++ f.eventsFile ++ "'...\n"),
   Effect.readFile f.eventsFile]

/-- The effects of a run in remote mode up to the return of `fetchGitLabEvents`
(lines 92-93). -/
def remoteStart (w : World) (startDate endDate : ISOTime) (fuel : Nat) : List Effect :=
  Effect.stdout "Fetching user events data from GitLab...\n" ::
    (fetchGitLabEvents w startDate endDate fuel).trace

/-- The effects of a run in remote mode up to the return of `saveEventsToFile`
(lines 92-99). -/
def remoteSaved (w : World) (f : Flags) (startDate endDate : ISOTime) (fuel : Nat)
    (events : Events) : List Effect :=
  remoteStart w startDate endDate fuel ++
    Effect.stdout "Save events to JSON file...\n" ::
      (saveEventsToFile w events (fileName f)).trace

/-- The progress line of line 105. -/
def summarizingLine (events : Events) : String :=
  "Summarizing " ++ String.mk (formatNat events.len) ++ " event(s) using ChatGPT...\n"

/-- The text printed by line 112. -/
def summaryOutput (user summary : String) : String :=
  "\nGitlab Events for user " ++ user ++ ":\n" ++ summary ++ "\n"

/-! ## Sample surroundings -/

/-- The Unix epoch in UTC. -/
def epoch : Time :=
  { year := 1970, month := 1, day := 1, hour := 0, minute := 0, second := 0, nanosecond := 0,
    zoneOffset := 0 }

/-- A record of the events API for the samples. -/
def sampleRecord (id : Int) (action title : String) : ContributionEvent :=
  { ID := id, Title := "", ProjectID := 7, ActionName := action, TargetID := 1,
    TargetType := "MergeRequest", AuthorID := 42, TargetTitle := title,
    CreatedAt := some epoch, AuthorUsername := "alice" }

/-- The first of two pages. -/
def samplePage1 : EventsPage :=
  { userEvents := [sampleRecord 11 "opened" "Fix <login>"],
    resp := { TotalItems := 2, TotalPages := 2, ItemsPerPage := 100, CurrentPage := 1,
              NextPage := 2, PreviousPage := 0 } }

/-- The second of two pages. -/
def samplePage2 : EventsPage :=
  { userEvents := [sampleRecord 12 "pushed to" "main"],
    resp := { TotalItems := 2, TotalPages := 2, ItemsPerPage := 100, CurrentPage := 2,
              NextPage := 0, PreviousPage := 1 } }

/-- The text of the sample events file: four elements, the first and the last
alike, one without a time, one `null`, not in the order of their `id`. -/
def sampleFileText : String :=
  "[\x7b\"id\": 12, \"action_name\": \"pushed to\", \"target_title\": \"main\", \"created_at\": \"1970-01-01T00:00:00Z\"\x7d,\n \x7b\"id\": 11, \"action_name\": \"opened\", \"target_title\": \"Fix login\"\x7d,\n null,\n \x7b\"id\": 12, \"action_name\": \"pushed to\", \"target_title\": \"main\", \"created_at\": \"1970-01-01T00:00:00Z\"\x7d]"

/-- The events the sample events file lists, as it lists them. -/
def sampleFileEvents : Events :=
  some
    [ some { ID := 12, Action := "pushed to", Target := "main", CreatedAt := some epoch },
      some { ID := 11, Action := "opened", Target := "Fix login", CreatedAt := none },
      none,
      some { ID := 12, Action := "pushed to", Target := "main", CreatedAt := some epoch } ]

/-- Surroundings in which everything works: two pages of events, a writable
directory, an events file that holds `sampleFileText`, a summarizer that
answers with one choice. -/
def sampleWorld : World where
  gitlabToken := "glpat"
  openaiAPIKey := "sk"
  gitlabDomain := "https://gitlab.example.com"
  parseISOTime := fun s =>
    if s = "" then .error "parsing time \"\"" else .ok { time := epoch }
  newClient := fun token url => .ok { token := token, baseURL := url }
  listEvents := fun n _ opts =>
    if n = 0 then .ok samplePage1
    else if n = 1 ∧ opts.Page = 2 then .ok samplePage2
    else .error "unexpected request"
  readFile := fun _ => .ok sampleFileText
  writeFile := fun _ _ => none
  post := fun _ =>
    { result := { Choices := [{ Message := { Content := "- Pushed fixes" } }],
                  Error := { Message := "" } },
      text := "", err := none }
  time := goTime

/-- The events of the two sample pages, in the order of the pages. -/
def sampleFetched : Events :=
  some
    [ some { ID := 11, Action := "opened", Target := "Fix <login>", CreatedAt := some epoch },
      some { ID := 12, Action := "pushed to", Target := "main", CreatedAt := some epoch } ]

/-- The sample date. -/
def sampleDate : ISOTime := { time := epoch }

/-- The client of the sample surroundings. -/
def sampleClient : Client :=
  { token := "glpat", baseURL := "https://gitlab.example.com/api/v4" }

/-- Flags of a run in remote mode. -/
def remoteFlags : Flags :=
  { startDateStr := "2024-01-01", endDateStr := "2024-01-31", gitlabUser := "alice",
    eventsFile := "", count := 3 }

/-- Flags of a run in file mode. -/
def fileFlags : Flags :=
  { startDateStr := "2024-01-01", endDateStr := "2024-01-31", gitlabUser := "alice",
    eventsFile := "events.json", count := 3 }

/-- An events API that answers the request for the default page with the first
sample page and every other request with the status 502. -/
def badGatewayServer : Server :=
  fun opts _ =>
    if opts.Page = 0 then WireAnswer.answer 200 samplePage1 ""
    else WireAnswer.answer 502 { userEvents := [], resp := samplePage2.resp } "502 Bad Gateway"

/-- Surroundings in which the second call of the events API fails: the server
answers the request for the second page with the status 502. -/
def failingFetchWorld : World :=
  sampleWorld.withServer badGatewayServer

/-- Surroundings with a well-behaved events API of three empty pages. -/
def threePagesWorld : World :=
  { sampleWorld with
    listEvents := fun _ _ opts =>
      .ok { userEvents := [],
            resp := { TotalItems := 0, TotalPages := 3, ItemsPerPage := 100,
                      CurrentPage := if opts.Page = 0 then 1 else opts.Page,
                      NextPage := (if opts.Page = 0 then 1 else opts.Page) + 1,
                      PreviousPage := 0 } } }

/-- Surroundings in which the events API has one empty page and the request to
the summarization API fails in transport. -/
def failingSummaryWorld : World :=
  { sampleWorld with
    listEvents := fun _ _ _ =>
      .ok { userEvents := [],
            resp := { TotalItems := 0, TotalPages := 1, ItemsPerPage := 100,
                      CurrentPage := 1, NextPage := 0, PreviousPage := 0 } }
    post := fun _ =>
      { result := { Choices := [], Error := { Message := "" } }, text := "",
        err := some "dial tcp: connection refused" } }

/-- Surroundings in which the summarization API answers with the status 200 and
a body that carries an error message and, all the same, a choice. -/
def quotaWorld : World :=
  { sampleWorld with
    post := fun _ =>
      restyPost
        { status := 200, isJSON := true,
          body := "\x7b\"choices\":[\x7b\"message\":\x7b\"content\":\"ignored\"\x7d\x7d],\"error\":\x7b\"message\":\"You exceeded your current quota\"\x7d\x7d",
          decoded := .ok { Choices := [{ Message := { Content := "ignored" } }],
                           Error := { Message := "You exceeded your current quota" } } } }

/-- The answer of the summarization API to a request over quota: the status 429
and a JSON body with an error message and no choices. -/
def quotaAnswer : ChatAnswer :=
  { status := 429, isJSON := true,
    body := "\x7b\"error\":\x7b\"message\":\"You exceeded your current quota\"\x7d\x7d",
    decoded := .ok { Choices := [], Error := { Message := "You exceeded your current quota" } } }

/-- Surroundings in which the summarization API answers every request with
`quotaAnswer`. -/
def overQuotaWorld : World :=
  { sampleWorld with post := fun _ => restyPost quotaAnswer }

/-- Surroundings without the token of the events API. -/
def noTokenWorld : World :=
  { sampleWorld with gitlabToken := "" }

/-! ## Notions used to state the round trip -/

/-- A character that `encoding/json` copies as it is, inside a string, both when
it reads and when it writes: no quote, no backslash, no control character, none
of the characters it escapes for HTML. -/
def isPlainChar (c : Char) : Bool :=
  !(c = '"' || c = '\\' || c.toNat < 32 || c = '<' || c = '>' || c = '&'
    || c.toNat = 0x2028 || c.toNat = 0x2029)

/-- Whether an event is a value of its Go type with a time RFC 3339 can carry:
the `ID` is a Go `int` (64 bits), and the time of `CreatedAt`, when there is
one, shows what a `time.Time` shows, with a year from 0 to 9999 and a zone
offset of whole minutes below 24 hours. -/
def GitLabEvent.representable (e : GitLabEvent) : Bool :=
  decide (minInt64 ≤ e.ID) && decide (e.ID ≤ maxInt64) &&
    (match e.CreatedAt with
     | none => true
     | some t => t.wellFormed && t.hasJSONForm)

/-- Whether all the events of a slice are representable. -/
def Events.representable : Events → Bool
  | none => true
  | some es =>
    es.all (fun elem =>
      match elem with
      | none => true
      | some e => e.representable)

/-- The time `t` is written as the quoted text `body` of plain characters, and
that text reads back as `t`. -/
def TimeCodec.ReadsBack (tc : TimeCodec) (t : Time) : Prop :=
  ∃ body, body.all isPlainChar = true ∧
    tc.MarshalJSON t = .ok ('"' :: body ++ ['"']) ∧
    tc.UnmarshalJSON ('"' :: body ++ ['"']) = .ok t

/-- The JSON value `created` is what a `created_at` field is written as, and
reads back as that field: `null` for a nil pointer, and for a time a string of
plain characters that `UnmarshalJSON` reads as the time. -/
def CreatedAs (tc : TimeCodec) (createdAt : Option Time) (created : JSON) : Prop :=
  (createdAt = none ∧ created = JSON.null) ∨
    ∃ t body, createdAt = some t ∧ created = JSON.str body ∧ body.all isPlainChar = true ∧
      tc.UnmarshalJSON ('"' :: body ++ ['"']) = .ok t

/-- The JSON value `j` is what the element `elem` of a slice is written as, and
reads back as that element: `null` for a nil pointer, the object of the event
otherwise. -/
def ElemAs (tc : TimeCodec) (elem : Option GitLabEvent) (j : JSON) : Prop :=
  (elem = none ∧ j = JSON.null) ∨
    ∃ e created, elem = some e ∧ j = eventObject e created ∧
      CreatedAs tc e.CreatedAt created ∧ minInt64 ≤ e.ID ∧ e.ID ≤ maxInt64

/-- A slice for the samples: an event with a time east of UTC whose strings need
escapes, a nil pointer, an event without a time, and an event on a leap day
west of UTC. -/
def sampleEvents : Events :=
  some
    [ some { ID := 11, Action := "opened", Target := "Fix <login> & \"quotes\"",
             CreatedAt := some { year := 2024, month := 1, day := 15, hour := 10, minute := 30,
                                 second := 0, nanosecond := 500000000, zoneOffset := 7200 } },
      none,
      some { ID := -3, Action := "pushed to", Target := "line\nbreak", CreatedAt := none },
      some { ID := 12, Action := "closed", Target := "",
             CreatedAt := some { year := 2024, month := 2, day := 29, hour := 23, minute := 59,
                                 second := 59, nanosecond := 1, zoneOffset := -34200 } } ]

/-- The text `json.MarshalIndent` writes for the sample slice. -/
def sampleEventsText : String :=
  "[\n  \x7b\n    \"id\": 11,\n    \"action_name\": \"opened\",\n    \"target_title\": \"Fix \\u003clogin\\u003e \\u0026 \\\"quotes\\\"\",\n    \"created_at\": \"2024-01-15T10:30:00.5+02:00\"\n  \x7d,\n  null,\n  \x7b\n    \"id\": -3,\n    \"action_name\": \"pushed to\",\n    \"target_title\": \"line\\nbreak\",\n    \"created_at\": null\n  \x7d,\n  \x7b\n    \"id\": 12,\n    \"action_name\": \"closed\",\n    \"target_title\": \"\",\n    \"created_at\": \"2024-02-29T23:59:59.000000001-09:30\"\n  \x7d\n]"

/-- A slice with one event, whose time lies in the year 10000. -/
def lateEvents : Events :=
  some
    [ some { ID := 1, Action := "opened", Target := "Plan",
             CreatedAt := some { year := 10000, month := 1, day := 1, hour := 0, minute := 0,
                                 second := 0, nanosecond := 0, zoneOffset := 0 } } ]

/-! # Verification -/

/-! ## The summarizer's handling of the response -/

/-- C2, the code at an answer that carries an error message.  The summarization
API answers with the status 429 and a JSON body whose error message is `You
exceeded your current quota`, and `Post` reports no error.  `summarizeEvents`
does not return that message with a nil error: the result object it tests
(line 231) was never filled, and it returns the empty string and a non-nil
error that holds the body (line 236). -/
theorem summarizeEvents_drops_error_message :
    (∃ response, quotaAnswer.decoded = .ok response ∧
      response.Error.Message = "You exceeded your current quota") ∧
    (overQuotaWorld.post (chatRequest overQuotaWorld (promptText 3 ['[', ']']))).err = none ∧
    (summarizeEvents overQuotaWorld (some []) 3).value = ("", some quotaAnswer.body) ∧
    (summarizeEvents overQuotaWorld (some []) 3).value ≠
      ("You exceeded your current quota", none) := by
  refine ⟨⟨_, rfl, rfl⟩, by decide, by decide, by decide⟩

/-- After an answer whose status is not from 200 to 299, `summarizeEvents`
returns the empty string and an error that holds the body of the answer,
whatever the body says. -/
theorem summarizeEvents_other_status (w : World) (events : Events) (count : Int)
    (eventData : List Char) (a : ChatAnswer)
    (hdata : jsonMarshal w.time events = .ok eventData)
    (hpost : w.post (chatRequest w (promptText count eventData)) = restyPost a)
    (hstatus : a.status < 200 ∨ 299 < a.status) :
    (summarizeEvents w events count).value = ("", some a.body) := by
  have hresty : restyPost a =
      { result := { Choices := [], Error := { Message := "" } }, text := a.body, err := none } := by
    unfold restyPost
    rw [if_neg (by omega)]
  simp only [summarizeEvents, hdata, hpost, hresty]
  simp

/-- When the event data could be encoded (so the request is made), `Post`
reports no error and the result object carries a non-empty error message, as it
does after an answer of status 200 with such a message, `summarizeEvents`
returns that message as its string with a nil error, whatever the choices of
the response are. -/
theorem summarizeEvents_error_message (w : World) (events : Events) (count : Int)
    (eventData : List Char)
    (hdata : jsonMarshal w.time events = .ok eventData)
    (htransport : (w.post (chatRequest w (promptText count eventData))).err = none)
    (hmsg : (w.post (chatRequest w (promptText count eventData))).result.Error.Message ≠ "") :
    (summarizeEvents w events count).value =
      ((w.post (chatRequest w (promptText count eventData))).result.Error.Message, none) := by
  simp only [summarizeEvents, hdata, htransport]
  rw [if_pos hmsg]

/-- C3.  When the request is made, the transport reports no error and the
response carries an empty error message: without choices `summarizeEvents`
returns the empty string and a non-nil error (the response as `%v` prints it);
with at least one choice it returns the content of the first choice and a nil
error; so it fails exactly when there is no choice. -/
theorem summarizeEvents_choices (w : World) (events : Events) (count : Int)
    (eventData : List Char)
    (hdata : jsonMarshal w.time events = .ok eventData)
    (htransport : (w.post (chatRequest w (promptText count eventData))).err = none)
    (hmsg : (w.post (chatRequest w (promptText count eventData))).result.Error.Message = "") :
    ((w.post (chatRequest w (promptText count eventData))).result.Choices = [] →
      (summarizeEvents w events count).value =
        ("", some (w.post (chatRequest w (promptText count eventData))).text)) ∧
    (∀ choice rest,
      (w.post (chatRequest w (promptText count eventData))).result.Choices = choice :: rest →
      (summarizeEvents w events count).value = (choice.Message.Content, none)) ∧
    ((summarizeEvents w events count).value.2 ≠ none ↔
      (w.post (chatRequest w (promptText count eventData))).result.Choices = []) := by
  simp only [summarizeEvents, hdata, htransport, hmsg]
  refine ⟨fun h => by simp [h], fun choice rest h => by simp [h], ?_⟩
  cases hc : (w.post (chatRequest w (promptText count eventData))).result.Choices <;> simp

/-! ## Configuration errors -/

/-- C4.  Whatever the flags, the mode and the answers of the surroundings: when
one of the three environment variables is empty or the base URL does not start
with `http`, the run consists of one fatal message and nothing else (no
request to either API, no file read or written, nothing printed) and ends with
a failure; the message is one of the two configuration messages. -/
theorem main_config_error (w : World) (f : Flags) (fuel : Nat)
    (h : w.gitlabToken = "" ∨ w.openaiAPIKey = "" ∨ w.gitlabDomain = "" ∨
      hasPrefix w.gitlabDomain "http" = false) :
    (main w f fuel =
        { trace := [Effect.fatal
            "Please set GITLAB_DOMAIN, GITLAB_TOKEN and OPENAI_API_KEY environment variables"],
          exit := some Exit.failure } ∨
      main w f fuel =
        { trace := [Effect.fatal "Environment variable GITLAB_DOMAIN must start with 'http'"],
          exit := some Exit.failure }) := by
  unfold main
  by_cases henv : w.gitlabToken = "" ∨ w.openaiAPIKey = "" ∨ w.gitlabDomain = ""
  · rw [if_pos henv]; left; rfl
  · rw [if_neg henv]
    have hp : hasPrefix w.gitlabDomain "http" = false := by
      rcases h with h | h | h | h
      · exact absurd (Or.inl h) henv
      · exact absurd (Or.inr (Or.inl h)) henv
      · exact absurd (Or.inr (Or.inr h)) henv
      · exact h
    rw [if_pos (by simp [hp])]; right; rfl

/-! ## The pagination loop -/

theorem requestAfter_nil (first : ListContributionEventsOptions) :
    requestAfter first [] = first := rfl

theorem requestAfter_cons (first : ListContributionEventsOptions) (p : EventsPage)
    (l : List EventsPage) :
    requestAfter first (p :: l) = requestAfter { first with Page := p.resp.NextPage } l := by
  cases l with
  | nil => rfl
  | cons q l =>
    simp only [requestAfter, List.getLast?_cons_cons]
    cases h : (q :: l).getLast? with
    | none => simp at h
    | some r => rfl

theorem requestsFor_cons (client : Client) (first : ListContributionEventsOptions)
    (p : EventsPage) (ps : List EventsPage) :
    requestsFor client first (p :: ps) =
      Effect.listEvents client first ::
        requestsFor client { first with Page := p.resp.NextPage } ps := by
  simp only [requestsFor, List.length_cons]
  rw [List.range_succ_eq_map]
  simp only [List.map_cons, List.map_map, List.take_zero, requestAfter_nil]
  congr 1
  apply List.map_congr_left
  intro i _
  simp [requestAfter_cons]

/-- The loop on a run of successful responses: `pages` are answered with a
current page below the total, then `last` with a current page that reached it. -/
theorem fetchLoop_pages (w : World) (client : Client) :
    ∀ (pages : List EventsPage) (last : EventsPage) (fuel n : Nat)
      (opts : ListContributionEventsOptions) (events : List (Option GitLabEvent)),
      (∀ i p, pages[i]? = some p →
        w.listEvents (n + i) client (requestAfter opts (pages.take i)) = .ok p ∧
          p.resp.CurrentPage < p.resp.TotalPages) →
      w.listEvents (n + pages.length) client (requestAfter opts pages) = .ok last →
      last.resp.CurrentPage ≥ last.resp.TotalPages →
      pages.length < fuel →
      fetchLoop w client fuel n opts events =
        { trace := requestsFor client opts pages,
          value := some
            (some (events ++
              ((pages ++ [last]).map
                (fun p => p.userEvents.map (fun e => some (toGitLabEvent e)))).flatten), none) } := by
  intro pages
  induction pages with
  | nil =>
    intro last fuel n opts events _ hlast hstop hfuel
    obtain ⟨fuel, rfl⟩ : ∃ k, fuel = k + 1 := ⟨fuel - 1, by simp at hfuel; omega⟩
    simp only [List.length_nil, Nat.add_zero, requestAfter_nil] at hlast
    simp [fetchLoop, hlast, hstop, requestsFor, requestAfter_nil]
  | cons p ps ih =>
    intro last fuel n opts events hpages hlast hstop hfuel
    obtain ⟨fuel, rfl⟩ : ∃ k, fuel = k + 1 := ⟨fuel - 1, by simp at hfuel; omega⟩
    have h0 := hpages 0 p (by simp)
    simp only [Nat.add_zero, List.take_zero, requestAfter_nil] at h0
    have hnot : ¬ p.resp.CurrentPage ≥ p.resp.TotalPages := by omega
    have hrec := ih last fuel (n + 1) { opts with Page := p.resp.NextPage }
      (events ++ p.userEvents.map (fun e => some (toGitLabEvent e)))
      (by
        intro i q hq
        have := hpages (i + 1) q (by simpa using hq)
        simpa [requestAfter_cons, Nat.add_assoc, Nat.add_comm 1 i] using this)
      (by simpa [requestAfter_cons, Nat.add_assoc, Nat.add_comm 1 ps.length] using hlast)
      hstop (by simp at hfuel; omega)
    simp only [fetchLoop, h0.1, hnot, if_false, hrec, requestsFor_cons]
    simp [List.append_assoc]

/-- The loop is still running after `fuel` requests when each of them was
answered with a current page below the total. -/
theorem fetchLoop_running (w : World) (client : Client) :
    ∀ (pages : List EventsPage) (fuel n : Nat)
      (opts : ListContributionEventsOptions) (events : List (Option GitLabEvent)),
      (∀ i p, pages[i]? = some p →
        w.listEvents (n + i) client (requestAfter opts (pages.take i)) = .ok p ∧
          p.resp.CurrentPage < p.resp.TotalPages) →
      fuel ≤ pages.length →
      (fetchLoop w client fuel n opts events).value = none := by
  intro pages
  induction pages with
  | nil =>
    intro fuel n opts events _ hfuel
    obtain rfl : fuel = 0 := by simpa using hfuel
    rfl
  | cons p ps ih =>
    intro fuel n opts events hpages hfuel
    cases fuel with
    | zero => rfl
    | succ fuel =>
      have h0 := hpages 0 p (by simp)
      simp only [Nat.add_zero, List.take_zero, requestAfter_nil] at h0
      have hnot : ¬ p.resp.CurrentPage ≥ p.resp.TotalPages := by omega
      have hrec := ih fuel (n + 1) { opts with Page := p.resp.NextPage }
        (events ++ p.userEvents.map (fun e => some (toGitLabEvent e)))
        (by
          intro i q hq
          have := hpages (i + 1) q (by simpa using hq)
          simpa [requestAfter_cons, Nat.add_assoc, Nat.add_comm 1 i] using this)
        (by simp at hfuel; omega)
      simp only [fetchLoop, h0.1, hnot, if_false, hrec]

/-- C1.  Let the client be created, let the server answer the requests of the
loop with the pages `pages` and then `last`, every page of `pages` with a current
page below its total and `last` with a current page that reached its total,
where the first request names no page (the default page) and every later request
names the `NextPage` of the response before it.  Then `fetchGitLabEvents`,
followed for more than `pages.length` requests, returns with a nil error the
records of these pages in order, each converted field by field; it makes exactly
these `pages.length + 1` requests, none after the one answered by `last`; and it
has not returned after `pages.length` requests or fewer. -/
theorem fetchGitLabEvents_concatenates_pages (w : World) (startDate endDate : ISOTime)
    (client : Client) (pages : List EventsPage) (last : EventsPage) (fuel : Nat)
    (hclient : w.newClient w.gitlabToken (w.gitlabDomain ++ "/api/v4") = .ok client)
    (hpages : ∀ i p, pages[i]? = some p →
      w.listEvents i client
          (requestAfter (initialOptions startDate endDate) (pages.take i)) = .ok p ∧
        p.resp.CurrentPage < p.resp.TotalPages)
    (hlast : w.listEvents pages.length client
      (requestAfter (initialOptions startDate endDate) pages) = .ok last)
    (hstop : last.resp.CurrentPage ≥ last.resp.TotalPages)
    (hfuel : pages.length < fuel) :
    (fetchGitLabEvents w startDate endDate fuel).value =
      some
        (some (((pages ++ [last]).map
          (fun p => p.userEvents.map
            (fun e => some
              { ID := e.ID, Action := e.ActionName, Target := e.TargetTitle,
                CreatedAt := e.CreatedAt : GitLabEvent }))).flatten), none) ∧
    (fetchGitLabEvents w startDate endDate fuel).trace =
      Effect.call (Call.fetchGitLabEvents startDate endDate) ::
        (List.range (pages.length + 1)).map
          (fun i => Effect.listEvents client
            { Page := match (pages.take i).getLast? with
                | none => 0
                | some p => p.resp.NextPage,
              PerPage := 100, After := some startDate, Before := some endDate }) ∧
    ∀ fewer, fewer ≤ pages.length →
      (fetchGitLabEvents w startDate endDate fewer).value = none := by
  have hloop := fetchLoop_pages w client pages last fuel 0 (initialOptions startDate endDate) []
    (by simpa using hpages) (by simpa using hlast) hstop hfuel
  refine ⟨?_, ?_, ?_⟩
  · simp only [fetchGitLabEvents, hclient, hloop, List.nil_append]
    rfl
  · simp only [fetchGitLabEvents, hclient, hloop, requestsFor]
    congr 1
    apply List.map_congr_left
    intro i _
    simp only [requestAfter, initialOptions]
    cases (pages.take i).getLast? <;> rfl
  · intro fewer hfewer
    have := fetchLoop_running w client pages fewer 0 (initialOptions startDate endDate) []
      (by simpa using hpages) hfewer
    simp only [fetchGitLabEvents, hclient, this]

/-- The loop when the request after `pages` fails. -/
theorem fetchLoop_fails (w : World) (client : Client) :
    ∀ (pages : List EventsPage) (err : GoError) (fuel n : Nat)
      (opts : ListContributionEventsOptions) (events : List (Option GitLabEvent)),
      (∀ i p, pages[i]? = some p →
        w.listEvents (n + i) client (requestAfter opts (pages.take i)) = .ok p ∧
          p.resp.CurrentPage < p.resp.TotalPages) →
      w.listEvents (n + pages.length) client (requestAfter opts pages) = .error err →
      pages.length < fuel →
      fetchLoop w client fuel n opts events =
        { trace := requestsFor client opts pages, value := some (none, some err) } := by
  intro pages
  induction pages with
  | nil =>
    intro err fuel n opts events _ hfail hfuel
    obtain ⟨fuel, rfl⟩ : ∃ k, fuel = k + 1 := ⟨fuel - 1, by simp at hfuel; omega⟩
    simp only [List.length_nil, Nat.add_zero, requestAfter_nil] at hfail
    simp [fetchLoop, hfail, requestsFor, requestAfter_nil]
  | cons p ps ih =>
    intro err fuel n opts events hpages hfail hfuel
    obtain ⟨fuel, rfl⟩ : ∃ k, fuel = k + 1 := ⟨fuel - 1, by simp at hfuel; omega⟩
    have h0 := hpages 0 p (by simp)
    simp only [Nat.add_zero, List.take_zero, requestAfter_nil] at h0
    have hnot : ¬ p.resp.CurrentPage ≥ p.resp.TotalPages := by omega
    have hrec := ih err fuel (n + 1) { opts with Page := p.resp.NextPage }
      (events ++ p.userEvents.map (fun e => some (toGitLabEvent e)))
      (by
        intro i q hq
        have := hpages (i + 1) q (by simpa using hq)
        simpa [requestAfter_cons, Nat.add_assoc, Nat.add_comm 1 i] using this)
      (by simpa [requestAfter_cons, Nat.add_assoc, Nat.add_comm 1 ps.length] using hfail)
      (by simp at hfuel; omega)
    simp only [fetchLoop, h0.1, hnot, if_false, hrec, requestsFor_cons]

theorem requestsFor_not_savesOrSummarizes (client : Client)
    (first : ListContributionEventsOptions) (pages : List EventsPage) :
    ∀ eff ∈ requestsFor client first pages, eff.savesOrSummarizes = false := by
  intro eff h
  simp only [requestsFor, List.mem_map] at h
  obtain ⟨i, _, rfl⟩ := h
  rfl

theorem wireRequests_append (server : Server) (l₁ l₂ : List Effect) :
    wireRequests server (l₁ ++ l₂) = wireRequests server l₁ ++ wireRequests server l₂ := by
  induction l₁ with
  | nil => rfl
  | cons e l₁ ih => cases e <;> simp [wireRequests, ih]

/-- A call of the SDK sends its request at least once more and at most as often
as it has sendings left. -/
theorem sdkCall_count (server : Server) (opts : ListContributionEventsOptions) :
    ∀ retries attempt, attempt + 1 ≤ (sdkCall server opts retries attempt).1 ∧
      (sdkCall server opts retries attempt).1 ≤ attempt + retries + 1 := by
  intro retries
  induction retries with
  | zero => intro attempt; exact ⟨Nat.le_refl _, Nat.le_refl _⟩
  | succ retries ih =>
    intro attempt
    rw [sdkCall]
    split_ifs
    · have := ih (attempt + 1)
      omega
    · exact ⟨Nat.le_refl _, by show attempt + 1 ≤ attempt + (retries + 1) + 1; omega⟩

/-- C7 fails as stated.  The events API answers the request for the second page
with the status 502, every time it is sent.  `fetchGitLabEvents` returns the
nil slice and the error of that page, after two calls of the SDK; on the wire
the request for the second page, the failing one, is followed by five more
requests for the same page, which the client of line 133 sends by itself. -/
theorem failed_request_is_sent_again :
    (fetchGitLabEvents failingFetchWorld sampleDate sampleDate 2).value =
      some (none, some "502 Bad Gateway") ∧
    (wireRequests badGatewayServer
        (fetchGitLabEvents failingFetchWorld sampleDate sampleDate 2).trace).map
      (fun opts => opts.Page) = [0, 2, 2, 2, 2, 2, 2] := by
  refine ⟨by decide, by decide⟩

/-- C7, amended.  Let the client be created, let the first `pages.length` calls
of the events API in the loop return `pages`, each with a current page below
its total, and let the next call fail with `err`.  Then `fetchGitLabEvents`
returns the nil slice together with `err`, and its calls of the events API are
exactly these `pages.length + 1`, the failing one last: the function does not
repeat a call and makes none after the failing one.  On the wire, against any
server, the last HTTP requests are the sendings of the request of the failing
call, at least one and at most one more than the client's `retryMax` of five;
no request follows them.  A run in remote mode with these answers, past the
configuration and date checks, prints the progress line, makes these calls,
and ends with the fatal message of the fetch error: it does not save a file
and does not call the summarizer. -/
theorem fetch_failure_aborts_run (w : World) (startDate endDate : ISOTime)
    (client : Client) (pages : List EventsPage) (err : GoError) (fuel : Nat)
    (hclient : w.newClient w.gitlabToken (w.gitlabDomain ++ "/api/v4") = .ok client)
    (hpages : ∀ i p, pages[i]? = some p →
      w.listEvents i client
          (requestAfter (initialOptions startDate endDate) (pages.take i)) = .ok p ∧
        p.resp.CurrentPage < p.resp.TotalPages)
    (hfail : w.listEvents pages.length client
      (requestAfter (initialOptions startDate endDate) pages) = .error err)
    (hfuel : pages.length < fuel) :
    (fetchGitLabEvents w startDate endDate fuel).value = some (none, some err) ∧
    (fetchGitLabEvents w startDate endDate fuel).trace =
      Effect.call (Call.fetchGitLabEvents startDate endDate) ::
        (List.range (pages.length + 1)).map
          (fun i => Effect.listEvents client
            { Page := match (pages.take i).getLast? with
                | none => 0
                | some p => p.resp.NextPage,
              PerPage := 100, After := some startDate, Before := some endDate }) ∧
    (∀ server : Server,
      wireRequests server (fetchGitLabEvents w startDate endDate fuel).trace =
        wireRequests server
          ((List.range pages.length).map
            (fun i => Effect.listEvents client
              (requestAfter (initialOptions startDate endDate) (pages.take i)))) ++
        List.replicate
          (sdkCall server (requestAfter (initialOptions startDate endDate) pages) retryMax 0).1
          (requestAfter (initialOptions startDate endDate) pages) ∧
      1 ≤ (sdkCall server (requestAfter (initialOptions startDate endDate) pages) retryMax 0).1 ∧
      (sdkCall server (requestAfter (initialOptions startDate endDate) pages) retryMax 0).1 ≤
        retryMax + 1) ∧
    ∀ f : Flags,
      w.gitlabToken ≠ "" → w.openaiAPIKey ≠ "" → w.gitlabDomain ≠ "" →
      hasPrefix w.gitlabDomain "http" = true →
      w.parseISOTime f.startDateStr = .ok startDate →
      w.parseISOTime f.endDateStr = .ok endDate →
      f.eventsFile = "" →
      main w f fuel =
        { trace :=
            Effect.stdout "Fetching user events data from GitLab...\n" ::
              (fetchGitLabEvents w startDate endDate fuel).trace ++
              [Effect.fatal ("Error fetching GitLab events: " ++ err)],
          exit := some Exit.failure } ∧
      ∀ eff ∈ (main w f fuel).trace, eff.savesOrSummarizes = false := by
  have hloop := fetchLoop_fails w client pages err fuel 0 (initialOptions startDate endDate) []
    (by simpa using hpages) (by simpa using hfail) hfuel
  have hvalue : (fetchGitLabEvents w startDate endDate fuel).value = some (none, some err) := by
    simp only [fetchGitLabEvents, hclient, hloop]
  have htrace : (fetchGitLabEvents w startDate endDate fuel).trace =
      Effect.call (Call.fetchGitLabEvents startDate endDate) ::
        requestsFor client (initialOptions startDate endDate) pages := by
    simp only [fetchGitLabEvents, hclient, hloop]
  refine ⟨hvalue, ?_, ?_, ?_⟩
  · rw [htrace]
    simp only [requestsFor]
    congr 1
    apply List.map_congr_left
    intro i _
    simp only [requestAfter, initialOptions]
    cases (pages.take i).getLast? <;> rfl
  · intro server
    have hcount := sdkCall_count server
      (requestAfter (initialOptions startDate endDate) pages) retryMax 0
    refine ⟨?_, by omega, by omega⟩
    rw [htrace]
    show wireRequests server (requestsFor client (initialOptions startDate endDate) pages) = _
    rw [requestsFor, List.range_succ, List.map_append, wireRequests_append]
    simp [wireRequests]
  · intro f h1 h2 h3 h4 hs he hfile
    have hmain : main w f fuel =
        { trace :=
            Effect.stdout "Fetching user events data from GitLab...\n" ::
              (fetchGitLabEvents w startDate endDate fuel).trace ++
              [Effect.fatal ("Error fetching GitLab events: " ++ err)],
          exit := some Exit.failure } := by
      simp only [main, h1, h2, h3, h4, hs, he, hfile, hvalue, fatal]
      simp
    refine ⟨hmain, ?_⟩
    rw [hmain, htrace]
    intro eff heff
    simp only [List.cons_append, List.mem_cons, List.mem_append, List.mem_singleton,
      List.not_mem_nil, or_false] at heff
    rcases heff with rfl | rfl | h | rfl
    · rfl
    · rfl
    · exact requestsFor_not_savesOrSummarizes client _ pages eff h
    · rfl

/-- The loop against a well-behaved server that reports `total` pages: from a
request whose page the server counts as `cur`, the loop makes
`(total - cur).toNat + 1` requests, for the pages `cur`, `cur + 1`, ..., and
returns without error. -/
theorem fetchLoop_wellBehaved (w : World) (client : Client) (total : Int)
    (hserver : ∀ n opts, ∃ page, w.listEvents n client opts = .ok page ∧
      page.resp.TotalPages = total ∧
      page.resp.CurrentPage = (if opts.Page = 0 then 1 else opts.Page) ∧
      (page.resp.CurrentPage < total → page.resp.NextPage = page.resp.CurrentPage + 1)) :
    ∀ (k fuel n : Nat) (cur : Int) (opts : ListContributionEventsOptions)
      (events : List (Option GitLabEvent)),
      1 ≤ cur → (if opts.Page = 0 then 1 else opts.Page) = cur →
      (total - cur).toNat = k →
      (k < fuel →
        ∃ result, fetchLoop w client fuel n opts events =
          { trace := (List.range (k + 1)).map
              (fun (i : Nat) => Effect.listEvents client
                { opts with Page := if i = 0 then opts.Page else cur + (i : Int) }),
            value := some (some result, none) }) ∧
      (fuel ≤ k → (fetchLoop w client fuel n opts events).value = none) := by
  intro k
  induction k with
  | zero =>
    intro fuel n cur opts events hcur hpage hk
    obtain ⟨page, hreq, htotal, hcurrent, _⟩ := hserver n opts
    have hstop : page.resp.CurrentPage ≥ page.resp.TotalPages := by
      rw [hcurrent, hpage, htotal]; omega
    refine ⟨fun hfuel => ?_, fun hfuel => ?_⟩
    · obtain ⟨fuel, rfl⟩ : ∃ j, fuel = j + 1 := ⟨fuel - 1, by omega⟩
      exact ⟨events ++ page.userEvents.map (fun e => some (toGitLabEvent e)),
        by simp [fetchLoop, hreq, hstop, List.range_succ_eq_map]⟩
    · obtain rfl : fuel = 0 := by omega
      rfl
  | succ k ih =>
    intro fuel n cur opts events hcur hpage hk
    obtain ⟨page, hreq, htotal, hcurrent, hnext⟩ := hserver n opts
    have hless : page.resp.CurrentPage < total := by
      rw [hcurrent, hpage]; omega
    have hnot : ¬ page.resp.CurrentPage ≥ page.resp.TotalPages := by
      rw [htotal]; omega
    have hnextPage : page.resp.NextPage = cur + 1 := by
      rw [hnext hless, hcurrent, hpage]
    have hne : cur + 1 ≠ 0 := by omega
    refine ⟨fun hfuel => ?_, fun hfuel => ?_⟩
    · obtain ⟨fuel, rfl⟩ : ∃ j, fuel = j + 1 := ⟨fuel - 1, by omega⟩
      obtain ⟨result, hrec⟩ :=
        (ih fuel (n + 1) (cur + 1) { opts with Page := page.resp.NextPage }
          (events ++ page.userEvents.map (fun e => some (toGitLabEvent e)))
          (by omega) (by simp [hnextPage, hne]) (by omega)).1 (by omega)
      refine ⟨result, ?_⟩
      simp only [fetchLoop, hreq, hnot, if_false, hrec]
      rw [List.range_succ_eq_map (k + 1)]
      simp only [List.map_cons, List.map_map, if_true]
      congr 2
      apply List.map_congr_left
      intro i _
      simp only [Function.comp, hnextPage, Nat.succ_ne_zero, if_false]
      by_cases hi : i = 0
      · simp [hi]
      · simp only [hi, if_false, Nat.cast_succ]
        congr 2
        omega
    · cases fuel with
      | zero => rfl
      | succ fuel =>
        have hrec :=
          (ih fuel (n + 1) (cur + 1) { opts with Page := page.resp.NextPage }
            (events ++ page.userEvents.map (fun e => some (toGitLabEvent e)))
            (by omega) (by simp [hnextPage, hne]) (by omega)).2 (by omega)
        simp only [fetchLoop, hreq, hnot, if_false, hrec]

/-- C10.  Let the client be created and let every request be answered by a
well-behaved server: it reports the constant total `total`, reports as current
page the page asked for, the default page counting as page 1, and reports the
next page as the current one plus one while the current page is below the
total.  Then `fetchGitLabEvents` returns, without error, once it is followed for
`max 1 total` requests, having made exactly that many requests (the default
page, then the pages 2, 3, ...), and it has not returned after fewer; for a
total of 0 (or below) this is one request. -/
theorem fetchGitLabEvents_terminates (w : World) (startDate endDate : ISOTime)
    (client : Client) (total : Int)
    (hclient : w.newClient w.gitlabToken (w.gitlabDomain ++ "/api/v4") = .ok client)
    (hserver : ∀ n opts, ∃ page, w.listEvents n client opts = .ok page ∧
      page.resp.TotalPages = total ∧
      page.resp.CurrentPage = (if opts.Page = 0 then 1 else opts.Page) ∧
      (page.resp.CurrentPage < total → page.resp.NextPage = page.resp.CurrentPage + 1)) :
    (∀ fuel, max 1 total.toNat ≤ fuel →
      ∃ events,
        (fetchGitLabEvents w startDate endDate fuel).value = some (some events, none) ∧
        (fetchGitLabEvents w startDate endDate fuel).trace =
          Effect.call (Call.fetchGitLabEvents startDate endDate) ::
            (List.range (max 1 total.toNat)).map
              (fun (i : Nat) => Effect.listEvents client
                { Page := if i = 0 then 0 else (i : Int) + 1,
                  PerPage := 100, After := some startDate, Before := some endDate })) ∧
    (∀ fuel, fuel < max 1 total.toNat →
      (fetchGitLabEvents w startDate endDate fuel).value = none) ∧
    (total ≤ 0 → max 1 total.toNat = 1) := by
  have hcount : (total - 1).toNat + 1 = max 1 total.toNat := by omega
  have hloop := fun fuel =>
    fetchLoop_wellBehaved w client total hserver (total - 1).toNat fuel 0 1
      (initialOptions startDate endDate) [] (by omega) (by simp [initialOptions]) rfl
  refine ⟨fun fuel hfuel => ?_, fun fuel hfuel => ?_, fun h => by omega⟩
  · obtain ⟨result, hrun⟩ := (hloop fuel).1 (by omega)
    refine ⟨result, ?_, ?_⟩
    · simp only [fetchGitLabEvents, hclient, hrun]
    · simp only [fetchGitLabEvents, hclient, hrun, hcount]
      congr 1
      apply List.map_congr_left
      intro i _
      simp only [initialOptions]
      by_cases hi : i = 0
      · simp [hi]
      · simp only [hi, if_false]
        congr 2
        omega
  · have hrun := (hloop fuel).2 (by omega)
    simp only [fetchGitLabEvents, hclient, hrun]

/-! ## The shape of a run -/

theorem fetchLoop_trace_requests (w : World) (client : Client) :
    ∀ (fuel n : Nat) (opts : ListContributionEventsOptions)
      (events : List (Option GitLabEvent)),
      ∀ eff ∈ (fetchLoop w client fuel n opts events).trace,
        ∃ o, eff = Effect.listEvents client o := by
  intro fuel
  induction fuel with
  | zero => intro n opts events eff h; simp [fetchLoop] at h
  | succ fuel ih =>
    intro n opts events eff h
    unfold fetchLoop at h
    split at h
    · simp only [List.mem_singleton] at h; exact ⟨opts, h⟩
    · split at h
      · simp only [List.mem_singleton] at h; exact ⟨opts, h⟩
      · simp only [List.mem_cons] at h
        rcases h with h | h
        · exact ⟨opts, h⟩
        · exact ih _ _ _ eff h

theorem fetchGitLabEvents_trace_mem (w : World) (startDate endDate : ISOTime) (fuel : Nat) :
    ∀ eff ∈ (fetchGitLabEvents w startDate endDate fuel).trace,
      eff = Effect.call (Call.fetchGitLabEvents startDate endDate) ∨
        ∃ c o, eff = Effect.listEvents c o := by
  intro eff h
  unfold fetchGitLabEvents at h
  split at h
  · simp only [List.mem_singleton] at h; exact Or.inl h
  · rename_i client _
    simp only [List.mem_cons] at h
    rcases h with h | h
    · exact Or.inl h
    · obtain ⟨o, ho⟩ := fetchLoop_trace_requests w client _ _ _ _ eff h
      exact Or.inr ⟨client, o, ho⟩

theorem saveEventsToFile_trace_mem (w : World) (events : Events) (filename : String) :
    ∀ eff ∈ (saveEventsToFile w events filename).trace,
      eff = Effect.call (Call.saveEventsToFile events filename) ∨
        ∃ data, eff = Effect.writeFile filename data := by
  intro eff h
  unfold saveEventsToFile at h
  split at h
  · simp only [List.mem_singleton] at h; exact Or.inl h
  · simp only [List.mem_cons, List.mem_singleton, List.not_mem_nil, or_false] at h
    rcases h with h | h
    · exact Or.inl h
    · exact Or.inr ⟨_, h⟩

theorem saveEventsToFile_call_mem (w : World) (events : Events) (filename : String) :
    Effect.call (Call.saveEventsToFile events filename) ∈
      (saveEventsToFile w events filename).trace := by
  unfold saveEventsToFile
  split <;> simp

theorem summarizeEvents_trace_mem (w : World) (events : Events) (count : Int) :
    ∀ eff ∈ (summarizeEvents w events count).trace,
      eff = Effect.call (Call.summarizeEvents events count) ∨ ∃ req, eff = Effect.post req := by
  intro eff h
  unfold summarizeEvents at h
  split at h
  · simp only [List.mem_singleton] at h; exact Or.inl h
  · simp only [List.mem_cons, List.mem_singleton, List.not_mem_nil, or_false] at h
    rcases h with h | h
    · exact Or.inl h
    · exact Or.inr ⟨_, h⟩

/-- Lines 105-112 after the effects `trace`: the progress line, the effects of
`summarizeEvents`, and then either the fatal message of its error or the
printed summary. -/
theorem summarizeAndPrint_cases (w : World) (f : Flags) (trace : List Effect)
    (events : Events) :
    (∃ err, (summarizeEvents w events f.count).value.2 = some err ∧
      summarizeAndPrint w f trace events =
        { trace := trace ++ Effect.stdout (summarizingLine events) ::
            (summarizeEvents w events f.count).trace ++
            [Effect.fatal ("Error summarizing events: " ++ err)],
          exit := some Exit.failure }) ∨
    ((summarizeEvents w events f.count).value.2 = none ∧
      summarizeAndPrint w f trace events =
        { trace := trace ++ Effect.stdout (summarizingLine events) ::
            (summarizeEvents w events f.count).trace ++
            [Effect.stdout
              (summaryOutput f.gitlabUser (summarizeEvents w events f.count).value.1)],
          exit := some Exit.success }) := by
  unfold summarizeAndPrint
  rcases hv : (summarizeEvents w events f.count).value with ⟨summary, _ | err⟩
  · exact Or.inr ⟨rfl, by simp [summarizingLine, summaryOutput, List.append_assoc]⟩
  · exact Or.inl ⟨err, rfl, by simp [fatal, summarizingLine, List.append_assoc]⟩

/-- Every run of `main` has one of seven shapes: a fatal message before anything
else (configuration or date error); in file mode a read or parse error, or the
summarizing of the parsed events; in remote mode a fetch still running, a fetch
error, a save error, or the summarizing of the fetched and saved events. -/
theorem main_cases (w : World) (f : Flags) (fuel : Nat) :
    (∃ msg, main w f fuel = fatal [] msg) ∨
    (f.eventsFile ≠ "" ∧ ∃ msg, main w f fuel = fatal (fileModeStart f) msg) ∨
    (f.eventsFile ≠ "" ∧ ∃ data events,
      w.readFile f.eventsFile = .ok data ∧
      jsonUnmarshal w.time data.toList = .ok events ∧
      main w f fuel = summarizeAndPrint w f (fileModeStart f) events) ∨
    (f.eventsFile = "" ∧ ∃ startDate endDate,
      w.parseISOTime f.startDateStr = .ok startDate ∧
      w.parseISOTime f.endDateStr = .ok endDate ∧
      (fetchGitLabEvents w startDate endDate fuel).value = none ∧
      main w f fuel = { trace := remoteStart w startDate endDate fuel, exit := none }) ∨
    (f.eventsFile = "" ∧ ∃ startDate endDate events err,
      w.parseISOTime f.startDateStr = .ok startDate ∧
      w.parseISOTime f.endDateStr = .ok endDate ∧
      (fetchGitLabEvents w startDate endDate fuel).value = some (events, some err) ∧
      main w f fuel =
        fatal (remoteStart w startDate endDate fuel) ("Error fetching GitLab events: " ++ err)) ∨
    (f.eventsFile = "" ∧ ∃ startDate endDate events err,
      w.parseISOTime f.startDateStr = .ok startDate ∧
      w.parseISOTime f.endDateStr = .ok endDate ∧
      (fetchGitLabEvents w startDate endDate fuel).value = some (events, none) ∧
      (saveEventsToFile w events (fileName f)).value = some err ∧
      main w f fuel =
        fatal (remoteSaved w f startDate endDate fuel events)
          ("Error saving events to file: " ++ err)) ∨
    (f.eventsFile = "" ∧ ∃ startDate endDate events,
      w.parseISOTime f.startDateStr = .ok startDate ∧
      w.parseISOTime f.endDateStr = .ok endDate ∧
      (fetchGitLabEvents w startDate endDate fuel).value = some (events, none) ∧
      (saveEventsToFile w events (fileName f)).value = none ∧
      main w f fuel =
        summarizeAndPrint w f (remoteSaved w f startDate endDate fuel events) events) := by
  unfold main
  split
  · exact Or.inl ⟨_, rfl⟩
  split
  · exact Or.inl ⟨_, rfl⟩
  split
  · exact Or.inl ⟨_, rfl⟩
  rename_i startDate hstart
  split
  · exact Or.inl ⟨_, rfl⟩
  rename_i endDate hend
  split
  · rename_i hfile
    split
    · exact Or.inr (Or.inl ⟨hfile, _, rfl⟩)
    rename_i data hread
    split
    · exact Or.inr (Or.inl ⟨hfile, _, rfl⟩)
    rename_i events hparsed
    exact Or.inr (Or.inr (Or.inl ⟨hfile, data, events, hread, hparsed, rfl⟩))
  · rename_i hfile
    have hfile : f.eventsFile = "" := by simpa using hfile
    split
    · rename_i hrun
      exact Or.inr (Or.inr (Or.inr (Or.inl ⟨hfile, startDate, endDate, hstart, hend, hrun, rfl⟩)))
    · rename_i events err hrun
      exact Or.inr (Or.inr (Or.inr (Or.inr (Or.inl
        ⟨hfile, startDate, endDate, events, err, hstart, hend, hrun, rfl⟩))))
    · rename_i events hrun
      split
      · rename_i err hsave
        exact Or.inr (Or.inr (Or.inr (Or.inr (Or.inr (Or.inl
          ⟨hfile, startDate, endDate, events, err, hstart, hend, hrun, hsave, rfl⟩)))))
      · rename_i hsave
        exact Or.inr (Or.inr (Or.inr (Or.inr (Or.inr (Or.inr
          ⟨hfile, startDate, endDate, events, hstart, hend, hrun, hsave, rfl⟩)))))

theorem call_mem_fatal (c : Call) (trace : List Effect) (msg : String) :
    Effect.call c ∈ (fatal trace msg).trace ↔ Effect.call c ∈ trace := by
  simp [fatal]

theorem call_mem_summarizeEvents (w : World) (events : Events) (count : Int) (c : Call) :
    Effect.call c ∈ (summarizeEvents w events count).trace ↔
      c = Call.summarizeEvents events count := by
  unfold summarizeEvents
  split <;> simp

theorem call_mem_summarizeAndPrint (w : World) (f : Flags) (trace : List Effect)
    (events : Events) (c : Call) :
    Effect.call c ∈ (summarizeAndPrint w f trace events).trace ↔
      Effect.call c ∈ trace ∨ c = Call.summarizeEvents events f.count := by
  rcases summarizeAndPrint_cases w f trace events with ⟨err, _, h⟩ | ⟨_, h⟩ <;>
    simp [h, call_mem_summarizeEvents]

theorem call_not_mem_fileModeStart (f : Flags) (c : Call) :
    Effect.call c ∉ fileModeStart f := by
  simp [fileModeStart]

theorem call_mem_remoteStart (w : World) (startDate endDate : ISOTime) (fuel : Nat)
    (c : Call) (h : Effect.call c ∈ remoteStart w startDate endDate fuel) :
    c = Call.fetchGitLabEvents startDate endDate := by
  simp only [remoteStart, List.mem_cons, reduceCtorEq, false_or] at h
  rcases fetchGitLabEvents_trace_mem w startDate endDate fuel _ h with h | ⟨_, _, h⟩
  · simpa using h
  · simp at h

theorem call_mem_remoteSaved (w : World) (f : Flags) (startDate endDate : ISOTime)
    (fuel : Nat) (events : Events) (c : Call) :
    Effect.call c ∈ remoteSaved w f startDate endDate fuel events →
      c = Call.fetchGitLabEvents startDate endDate ∨
        c = Call.saveEventsToFile events (fileName f) := by
  intro h
  simp only [remoteSaved, List.mem_append, List.mem_cons, reduceCtorEq, false_or] at h
  rcases h with h | h
  · exact Or.inl (call_mem_remoteStart w startDate endDate fuel c h)
  · rcases saveEventsToFile_trace_mem w events _ _ h with h | ⟨_, h⟩
    · right; simpa using h
    · simp at h

theorem save_call_mem_remoteSaved (w : World) (f : Flags) (startDate endDate : ISOTime)
    (fuel : Nat) (events : Events) :
    Effect.call (Call.saveEventsToFile events (fileName f)) ∈
      remoteSaved w f startDate endDate fuel events := by
  simp only [remoteSaved, List.mem_append, List.mem_cons, reduceCtorEq, false_or]
  exact Or.inr (saveEventsToFile_call_mem w _ _)

/-- C6.  In every run in which `summarizeEvents` is called, it is called with the
count of the `-count` flag and with exactly the slice the event source
produced: in file mode the slice `json.Unmarshal` decoded from the content of
the file; in remote mode the slice `fetchGitLabEvents` returned, and that same
slice is what `saveEventsToFile` was called with in this run (it was called,
and with no other slice). -/
theorem summarizer_receives_source_events (w : World) (f : Flags) (fuel : Nat)
    (events : Events) (count : Int)
    (h : Effect.call (Call.summarizeEvents events count) ∈ (main w f fuel).trace) :
    count = f.count ∧
    (f.eventsFile ≠ "" →
      ∃ data, w.readFile f.eventsFile = .ok data ∧
        jsonUnmarshal w.time data.toList = .ok events) ∧
    (f.eventsFile = "" →
      ∃ startDate endDate,
        w.parseISOTime f.startDateStr = .ok startDate ∧
        w.parseISOTime f.endDateStr = .ok endDate ∧
        (fetchGitLabEvents w startDate endDate fuel).value = some (events, none) ∧
        (∃ filename,
          Effect.call (Call.saveEventsToFile events filename) ∈ (main w f fuel).trace) ∧
        ∀ saved filename,
          Effect.call (Call.saveEventsToFile saved filename) ∈ (main w f fuel).trace →
            saved = events) := by
  rcases main_cases w f fuel with ⟨msg, hm⟩ | ⟨_, msg, hm⟩ | ⟨hfile, data, parsed, hread, hparsed, hm⟩ |
    ⟨_, s, e, _, _, _, hm⟩ | ⟨_, s, e, evs, err, _, _, _, hm⟩ |
    ⟨_, s, e, evs, err, _, _, _, _, hm⟩ | ⟨hfile, s, e, evs, hs, he, hrun, hsave, hm⟩
  · rw [hm, call_mem_fatal] at h
    simp at h
  · rw [hm, call_mem_fatal] at h
    exact absurd h (call_not_mem_fileModeStart f _)
  · rw [hm, call_mem_summarizeAndPrint] at h
    rcases h with h | h
    · exact absurd h (call_not_mem_fileModeStart f _)
    · simp only [Call.summarizeEvents.injEq] at h
      obtain ⟨rfl, rfl⟩ := h
      exact ⟨rfl, fun _ => ⟨data, hread, hparsed⟩, fun h0 => absurd h0 hfile⟩
  · rw [hm] at h
    have := call_mem_remoteStart w s e fuel _ h
    simp at this
  · rw [hm, call_mem_fatal] at h
    have := call_mem_remoteStart w s e fuel _ h
    simp at this
  · rw [hm, call_mem_fatal] at h
    rcases call_mem_remoteSaved w f s e fuel evs _ h with h | h <;> simp at h
  · rw [hm, call_mem_summarizeAndPrint] at h
    rcases h with h | h
    · rcases call_mem_remoteSaved w f s e fuel evs _ h with h | h <;> simp at h
    · simp only [Call.summarizeEvents.injEq] at h
      obtain ⟨rfl, rfl⟩ := h
      refine ⟨rfl, fun h0 => absurd hfile h0, fun _ => ⟨s, e, hs, he, hrun, ?_, ?_⟩⟩
      · refine ⟨fileName f, ?_⟩
        rw [hm, call_mem_summarizeAndPrint]
        exact Or.inl (save_call_mem_remoteSaved w f s e fuel events)
      · intro saved filename hsaved
        rw [hm, call_mem_summarizeAndPrint] at hsaved
        rcases hsaved with hsaved | hsaved
        · rcases call_mem_remoteSaved w f s e fuel events _ hsaved with h | h
          · simp at h
          · simp only [Call.saveEventsToFile.injEq] at h
            exact h.1
        · simp at hsaved

/-! ## The `-user` flag -/

theorem fileName_eq (f g : Flags) (hs : g.startDateStr = f.startDateStr)
    (he : g.endDateStr = f.endDateStr) : fileName g = fileName f := by
  simp [fileName, hs, he]

/-- Two sets of flags that agree on everything but the user lead to the same
run, or to two successful runs that differ in the user named by the last line. -/
theorem main_user_only (w : World) (f g : Flags) (fuel : Nat)
    (hs : g.startDateStr = f.startDateStr) (he : g.endDateStr = f.endDateStr)
    (hfile : g.eventsFile = f.eventsFile) (hcount : g.count = f.count) :
    (main w f fuel = main w g fuel ∧ (main w f fuel).exit ≠ some Exit.success) ∨
    ∃ common summary,
      main w f fuel =
        { trace := common ++ [Effect.stdout (summaryOutput f.gitlabUser summary)],
          exit := some Exit.success } ∧
      main w g fuel =
        { trace := common ++ [Effect.stdout (summaryOutput g.gitlabUser summary)],
          exit := some Exit.success } := by
  have hname := fileName_eq f g hs he
  have hsum : ∀ trace events,
      (summarizeAndPrint w f trace events = summarizeAndPrint w g trace events ∧
        (summarizeAndPrint w f trace events).exit ≠ some Exit.success) ∨
      ∃ common summary,
        summarizeAndPrint w f trace events =
          { trace := common ++ [Effect.stdout (summaryOutput f.gitlabUser summary)],
            exit := some Exit.success } ∧
        summarizeAndPrint w g trace events =
          { trace := common ++ [Effect.stdout (summaryOutput g.gitlabUser summary)],
            exit := some Exit.success } := by
    intro trace events
    rcases summarizeAndPrint_cases w f trace events with ⟨err, herr, h1⟩ | ⟨hok, h1⟩ <;>
      rcases summarizeAndPrint_cases w g trace events with ⟨err2, herr2, h2⟩ | ⟨hok2, h2⟩
    · rw [hcount] at herr2 h2
      rw [herr] at herr2
      obtain rfl : err = err2 := by simpa using herr2
      left
      rw [h1, h2]
      exact ⟨rfl, by simp⟩
    · rw [hcount, herr] at hok2
      simp at hok2
    · rw [hcount, hok] at herr2
      simp at herr2
    · right
      rw [hcount] at h2
      exact ⟨_, _, by rw [h1, List.append_assoc], by rw [h2, List.append_assoc]⟩
  unfold main
  rw [hs, he, hfile, hname]
  split
  · left; exact ⟨rfl, by simp [fatal]⟩
  split
  · left; exact ⟨rfl, by simp [fatal]⟩
  split
  · left; exact ⟨rfl, by simp [fatal]⟩
  split
  · left; exact ⟨rfl, by simp [fatal]⟩
  split
  · split
    · left; exact ⟨rfl, by simp [fatal]⟩
    split
    · left; exact ⟨rfl, by simp [fatal]⟩
    exact hsum _ _
  · split
    · left; exact ⟨rfl, by simp⟩
    · left; exact ⟨rfl, by simp [fatal]⟩
    · split
      · left; exact ⟨rfl, by simp [fatal]⟩
      · exact hsum _ _

/-- C9.  Two runs that differ only in the value of `-user` (same other flags, same
surroundings, followed for the same number of requests) have the same effects in
the same order (the requests to the events API, the calls with the event slice,
the name and content of the file written, the request to the summarization API,
the progress lines and the fatal message) and the same outcome, except that,
when they succeed, their last effects are the printed summaries, which name
the one and the other user and carry the same summary. -/
theorem user_flag_is_informational (w : World) (f : Flags) (user₁ user₂ : String)
    (fuel : Nat) :
    (main w { f with gitlabUser := user₁ } fuel = main w { f with gitlabUser := user₂ } fuel ∧
      (main w { f with gitlabUser := user₁ } fuel).exit ≠ some Exit.success) ∨
    ∃ common summary,
      main w { f with gitlabUser := user₁ } fuel =
        { trace := common ++ [Effect.stdout (summaryOutput user₁ summary)],
          exit := some Exit.success } ∧
      main w { f with gitlabUser := user₂ } fuel =
        { trace := common ++ [Effect.stdout (summaryOutput user₂ summary)],
          exit := some Exit.success } :=
  main_user_only w { f with gitlabUser := user₁ } { f with gitlabUser := user₂ } fuel
    rfl rfl rfl rfl

/-! ## Output of a run that fails -/

theorem stdout_not_mem_fetch (w : World) (startDate endDate : ISOTime) (fuel : Nat)
    (text : String) : Effect.stdout text ∉ (fetchGitLabEvents w startDate endDate fuel).trace := by
  intro h
  rcases fetchGitLabEvents_trace_mem w startDate endDate fuel _ h with h | ⟨_, _, h⟩ <;>
    simp at h

theorem writeFile_not_mem_fetch (w : World) (startDate endDate : ISOTime) (fuel : Nat)
    (name data : String) :
    Effect.writeFile name data ∉ (fetchGitLabEvents w startDate endDate fuel).trace := by
  intro h
  rcases fetchGitLabEvents_trace_mem w startDate endDate fuel _ h with h | ⟨_, _, h⟩ <;>
    simp at h

theorem stdout_not_mem_save (w : World) (events : Events) (filename text : String) :
    Effect.stdout text ∉ (saveEventsToFile w events filename).trace := by
  intro h
  rcases saveEventsToFile_trace_mem w events filename _ h with h | ⟨_, h⟩ <;> simp at h

theorem stdout_not_mem_summarize (w : World) (events : Events) (count : Int) (text : String) :
    Effect.stdout text ∉ (summarizeEvents w events count).trace := by
  intro h
  rcases summarizeEvents_trace_mem w events count _ h with h | ⟨_, h⟩ <;> simp at h

theorem writeFile_not_mem_summarize (w : World) (events : Events) (count : Int)
    (name data : String) :
    Effect.writeFile name data ∉ (summarizeEvents w events count).trace := by
  intro h
  rcases summarizeEvents_trace_mem w events count _ h with h | ⟨_, h⟩ <;> simp at h

/-- A file write among the effects of `saveEventsToFile` is the write of the
indented JSON text of the events under the given name. -/
theorem writeFile_mem_save (w : World) (events : Events) (filename name data : String)
    (h : Effect.writeFile name data ∈ (saveEventsToFile w events filename).trace) :
    name = filename ∧ jsonMarshalIndent w.time events = .ok data.toList ∧
      (saveEventsToFile w events filename).value = w.writeFile name data := by
  unfold saveEventsToFile at h ⊢
  split at h
  · simp at h
  · rename_i text htext
    simp only [List.mem_cons, List.mem_singleton, reduceCtorEq, false_or, List.not_mem_nil,
      or_false, Effect.writeFile.injEq] at h
    obtain ⟨rfl, rfl⟩ := h
    simp [htext]

/-- C8 fails as stated.  In remote mode with an events API of one empty page and
a summarization API that cannot be reached, the run ends with a fatal error
after it has printed progress lines on standard output and written the events
file. -/
theorem partial_output_on_summarizer_failure :
    (main failingSummaryWorld remoteFlags 1).exit = some Exit.failure ∧
    Effect.stdout "Fetching user events data from GitLab...\n" ∈
      (main failingSummaryWorld remoteFlags 1).trace ∧
    Effect.writeFile "gitlab_events.2024-01-01_2024-01-31.json" "[]" ∈
      (main failingSummaryWorld remoteFlags 1).trace := by
  refine ⟨by decide, by decide, by decide⟩

/-- C8, amended.  In every run that ends in a fatal error the summary is not
printed: the effects end with the fatal message, and before it standard output
received only progress lines (of lines 82, 92, 97 and 105); a file was written
before it only in remote mode, under the name of line 98 and with the indented
JSON text of the fetched events, and then the failure is that of this write or
that of the summarizer.  When the failure is a configuration or date error, the
fatal message is the only effect of the run. -/
theorem fatal_run_output (w : World) (f : Flags) (fuel : Nat)
    (h : (main w f fuel).exit = some Exit.failure) :
    (∃ before msg,
      (main w f fuel).trace = before ++ [Effect.fatal msg] ∧
      (∀ text, Effect.stdout text ∈ before →
        text = "Fetching user events data from file '" ++ f.eventsFile ++ "'...\n" ∨
        text = "Fetching user events data from GitLab...\n" ∨
        text = "Save events to JSON file...\n" ∨
        ∃ events, text = summarizingLine events) ∧
      (∀ name data, Effect.writeFile name data ∈ before →
        f.eventsFile = "" ∧ name = fileName f ∧
        ∃ startDate endDate events,
          (fetchGitLabEvents w startDate endDate fuel).value = some (events, none) ∧
          jsonMarshalIndent w.time events = .ok data.toList ∧
          ((∃ err, w.writeFile name data = some err) ∨
            ∃ err, (summarizeEvents w events f.count).value.2 = some err))) ∧
    ((w.gitlabToken = "" ∨ w.openaiAPIKey = "" ∨ w.gitlabDomain = "" ∨
        hasPrefix w.gitlabDomain "http" = false ∨
        (∃ err, w.parseISOTime f.startDateStr = .error err) ∨
        (∃ err, w.parseISOTime f.endDateStr = .error err)) →
      ∃ msg, (main w f fuel).trace = [Effect.fatal msg]) := by
  constructor
  · rcases main_cases w f fuel with ⟨msg, hm⟩ | ⟨_, msg, hm⟩ |
      ⟨hfile, data, parsed, hread, hparsed, hm⟩ |
      ⟨_, s, e, _, _, _, hm⟩ | ⟨_, s, e, evs, err, _, _, _, hm⟩ |
      ⟨hfile, s, e, evs, err, _, _, hrun, hsave, hm⟩ | ⟨hfile, s, e, evs, hs, he, hrun, hsave, hm⟩
    · exact ⟨[], msg, by rw [hm]; rfl, by simp, by simp⟩
    · refine ⟨fileModeStart f, msg, by rw [hm]; rfl, ?_, ?_⟩
      · intro text ht
        simp only [fileModeStart, List.mem_cons, Effect.stdout.injEq, reduceCtorEq,
          List.not_mem_nil, or_false] at ht
        exact Or.inl ht
      · intro name data hd
        simp [fileModeStart] at hd
    · rcases summarizeAndPrint_cases w f (fileModeStart f) parsed with ⟨err, herr, hp⟩ | ⟨_, hp⟩
      · refine ⟨fileModeStart f ++ Effect.stdout (summarizingLine parsed) ::
            (summarizeEvents w parsed f.count).trace, _, by rw [hm, hp], ?_, ?_⟩
        · intro text ht
          simp only [fileModeStart, List.cons_append, List.nil_append, List.mem_cons,
            Effect.stdout.injEq, reduceCtorEq, false_or] at ht
          rcases ht with ht | ht | ht
          · exact Or.inl ht
          · exact Or.inr (Or.inr (Or.inr ⟨parsed, ht⟩))
          · exact absurd ht (stdout_not_mem_summarize w parsed f.count text)
        · intro name data hd
          simp only [fileModeStart, List.cons_append, List.nil_append, List.mem_cons,
            reduceCtorEq, false_or] at hd
          exact absurd hd (writeFile_not_mem_summarize w parsed f.count name data)
      · rw [hm, hp] at h
        simp at h
    · rw [hm] at h
      simp at h
    · refine ⟨remoteStart w s e fuel, _, by rw [hm]; rfl, ?_, ?_⟩
      · intro text ht
        simp only [remoteStart, List.mem_cons, Effect.stdout.injEq] at ht
        rcases ht with ht | ht
        · exact Or.inr (Or.inl ht)
        · exact absurd ht (stdout_not_mem_fetch w s e fuel text)
      · intro name data hd
        simp only [remoteStart, List.mem_cons, reduceCtorEq, false_or] at hd
        exact absurd hd (writeFile_not_mem_fetch w s e fuel name data)
    · refine ⟨remoteSaved w f s e fuel evs, _, by rw [hm]; rfl, ?_, ?_⟩
      · intro text ht
        simp only [remoteSaved, remoteStart, List.cons_append, List.mem_cons, List.mem_append,
          Effect.stdout.injEq] at ht
        rcases ht with ht | ht | ht | ht
        · exact Or.inr (Or.inl ht)
        · exact absurd ht (stdout_not_mem_fetch w s e fuel text)
        · exact Or.inr (Or.inr (Or.inl ht))
        · exact absurd ht (stdout_not_mem_save w evs _ text)
      · intro name data hd
        simp only [remoteSaved, remoteStart, List.cons_append, List.mem_cons, List.mem_append,
          reduceCtorEq, false_or] at hd
        rcases hd with hd | hd
        · exact absurd hd (writeFile_not_mem_fetch w s e fuel name data)
        · obtain ⟨rfl, hdata, hvalue⟩ := writeFile_mem_save w evs _ name data hd
          refine ⟨hfile, rfl, s, e, evs, hrun, hdata, Or.inl ⟨err, ?_⟩⟩
          rw [← hvalue, hsave]
    · rcases summarizeAndPrint_cases w f (remoteSaved w f s e fuel evs) evs with
        ⟨err, herr, hp⟩ | ⟨_, hp⟩
      · refine ⟨remoteSaved w f s e fuel evs ++ Effect.stdout (summarizingLine evs) ::
            (summarizeEvents w evs f.count).trace, _, by rw [hm, hp], ?_, ?_⟩
        · intro text ht
          simp only [remoteSaved, remoteStart, List.cons_append, List.mem_cons, List.mem_append,
            Effect.stdout.injEq, List.append_assoc] at ht
          rcases ht with ht | ht | ht | ht | ht | ht
          · exact Or.inr (Or.inl ht)
          · exact absurd ht (stdout_not_mem_fetch w s e fuel text)
          · exact Or.inr (Or.inr (Or.inl ht))
          · exact absurd ht (stdout_not_mem_save w evs _ text)
          · exact Or.inr (Or.inr (Or.inr ⟨evs, ht⟩))
          · exact absurd ht (stdout_not_mem_summarize w evs f.count text)
        · intro name data hd
          simp only [remoteSaved, remoteStart, List.cons_append, List.mem_cons, List.mem_append,
            reduceCtorEq, false_or, List.append_assoc] at hd
          rcases hd with hd | hd | hd
          · exact absurd hd (writeFile_not_mem_fetch w s e fuel name data)
          · obtain ⟨rfl, hdata, _⟩ := writeFile_mem_save w evs _ name data hd
            exact ⟨hfile, rfl, s, e, evs, hrun, hdata, Or.inr ⟨err, herr⟩⟩
          · exact absurd hd (writeFile_not_mem_summarize w evs f.count name data)
      · rw [hm, hp] at h
        simp at h
  · intro hc
    unfold main
    by_cases henv : w.gitlabToken = "" ∨ w.openaiAPIKey = "" ∨ w.gitlabDomain = ""
    · rw [if_pos henv]; exact ⟨_, rfl⟩
    rw [if_neg henv]
    by_cases hp : hasPrefix w.gitlabDomain "http" = true
    · rw [if_neg (by simpa using hp)]
      rcases hc with hc | hc | hc | hc | ⟨err, hc⟩ | ⟨err, hc⟩
      · exact absurd (Or.inl hc) henv
      · exact absurd (Or.inr (Or.inl hc)) henv
      · exact absurd (Or.inr (Or.inr hc)) henv
      · rw [hp] at hc; simp at hc
      · simp only [hc]; exact ⟨_, rfl⟩
      · cases hstart : w.parseISOTime f.startDateStr with
        | error e => exact ⟨_, rfl⟩
        | ok startDate => simp only [hc]; exact ⟨_, rfl⟩
    · rw [if_pos hp]; exact ⟨_, rfl⟩

/-! ## The properties at sample surroundings -/

/-- C1 at the sample surroundings: two pages, one record each. -/
theorem fetchGitLabEvents_concatenates_pages_sample :
    (fetchGitLabEvents sampleWorld sampleDate sampleDate 2).value =
      some
        (some
          [some { ID := 11, Action := "opened", Target := "Fix <login>",
                  CreatedAt := some epoch },
           some { ID := 12, Action := "pushed to", Target := "main",
                  CreatedAt := some epoch }], none) :=
  (fetchGitLabEvents_concatenates_pages sampleWorld sampleDate sampleDate sampleClient
    [samplePage1] samplePage2 2 rfl
    (by
      intro i p h
      cases i with
      | zero =>
        simp only [List.getElem?_cons_zero, Option.some.injEq] at h
        subst h
        exact ⟨rfl, by decide⟩
      | succ i => simp at h)
    rfl (by decide) (by decide)).1

/-- The error message of an answer of status 200 that also carries a choice. -/
theorem summarizeEvents_error_message_sample :
    (summarizeEvents quotaWorld (some []) 3).value =
      ("You exceeded your current quota", none) :=
  summarizeEvents_error_message quotaWorld (some []) 3 ['[', ']'] rfl rfl (by decide)

/-- C3 at the sample surroundings: one choice, no error message. -/
theorem summarizeEvents_choices_sample :
    (summarizeEvents sampleWorld (some []) 3).value = ("- Pushed fixes", none) :=
  (summarizeEvents_choices sampleWorld (some []) 3 ['[', ']'] rfl rfl rfl).2.1
    { Message := { Content := "- Pushed fixes" } } [] rfl

/-- C4 at surroundings without the token of the events API. -/
theorem main_config_error_sample :
    main noTokenWorld fileFlags 0 =
        { trace := [Effect.fatal
            "Please set GITLAB_DOMAIN, GITLAB_TOKEN and OPENAI_API_KEY environment variables"],
          exit := some Exit.failure } ∨
      main noTokenWorld fileFlags 0 =
        { trace := [Effect.fatal "Environment variable GITLAB_DOMAIN must start with 'http'"],
          exit := some Exit.failure } :=
  main_config_error noTokenWorld fileFlags 0 (Or.inl rfl)

set_option maxRecDepth 16000 in
/-- C6 at the sample surroundings, in both modes.  In remote mode the events API
has two pages of one record each: the summarizer is called with the two events
in the order of the pages, this is the slice `fetchGitLabEvents` returned, and
`saveEventsToFile` was called with it and with no other slice.  In file mode
the file lists four elements, two of them alike and not in the order of their
`id`: the summarizer is called with these four, as the file lists them. -/
theorem summarizer_receives_source_events_sample :
    (Effect.call (Call.summarizeEvents sampleFetched 3) ∈
        (main sampleWorld remoteFlags 2).trace ∧
      ∃ startDate endDate,
        sampleWorld.parseISOTime remoteFlags.startDateStr = .ok startDate ∧
        sampleWorld.parseISOTime remoteFlags.endDateStr = .ok endDate ∧
        (fetchGitLabEvents sampleWorld startDate endDate 2).value = some (sampleFetched, none) ∧
        (∃ filename,
          Effect.call (Call.saveEventsToFile sampleFetched filename) ∈
            (main sampleWorld remoteFlags 2).trace) ∧
        ∀ saved filename,
          Effect.call (Call.saveEventsToFile saved filename) ∈
              (main sampleWorld remoteFlags 2).trace →
            saved = sampleFetched) ∧
    (Effect.call (Call.summarizeEvents sampleFileEvents 3) ∈
        (main sampleWorld fileFlags 0).trace ∧
      ∃ data, sampleWorld.readFile fileFlags.eventsFile = .ok data ∧
        jsonUnmarshal sampleWorld.time data.toList = .ok sampleFileEvents) :=
  ⟨⟨by decide,
    (summarizer_receives_source_events sampleWorld remoteFlags 2 sampleFetched 3
      (by decide)).2.2 rfl⟩,
   ⟨by decide,
    (summarizer_receives_source_events sampleWorld fileFlags 0 sampleFileEvents 3
      (by decide)).2.1 (by decide)⟩⟩

/-- C7 as amended, at surroundings whose second call fails after the first page
was fetched: the nil slice and the error, and a run that ends in failure
without saving or summarizing. -/
theorem fetch_failure_aborts_run_sample :
    (fetchGitLabEvents failingFetchWorld sampleDate sampleDate 2).value =
      some (none, some "502 Bad Gateway") ∧
    (main failingFetchWorld remoteFlags 2).exit = some Exit.failure ∧
    ∀ eff ∈ (main failingFetchWorld remoteFlags 2).trace, eff.savesOrSummarizes = false :=
  have h := fetch_failure_aborts_run failingFetchWorld sampleDate sampleDate sampleClient
    [samplePage1] "502 Bad Gateway" 2 rfl
    (by
      intro i p h
      cases i with
      | zero =>
        simp only [List.getElem?_cons_zero, Option.some.injEq] at h
        subst h
        exact ⟨rfl, by decide⟩
      | succ i => simp at h)
    rfl (by decide)
  have hrun := h.2.2.2 remoteFlags (by decide) (by decide) (by decide) rfl rfl rfl rfl
  ⟨h.1, by rw [hrun.1], hrun.2⟩

/-- C8 as amended, at surroundings whose summarization API cannot be reached. -/
theorem fatal_run_output_sample :
    ∃ before msg,
      (main failingSummaryWorld remoteFlags 1).trace = before ++ [Effect.fatal msg] :=
  match (fatal_run_output failingSummaryWorld remoteFlags 1 (by decide)).1 with
  | ⟨before, msg, h, _⟩ => ⟨before, msg, h⟩

/-- C10 at surroundings with a well-behaved events API of three pages. -/
theorem fetchGitLabEvents_terminates_sample :
    ∃ events,
      (fetchGitLabEvents threePagesWorld sampleDate sampleDate 3).value =
        some (some events, none) ∧
      (fetchGitLabEvents threePagesWorld sampleDate sampleDate 3).trace =
        Effect.call (Call.fetchGitLabEvents sampleDate sampleDate) ::
          (List.range (max 1 (3 : Int).toNat)).map
            (fun (i : Nat) => Effect.listEvents sampleClient
              { Page := if i = 0 then 0 else (i : Int) + 1,
                PerPage := 100, After := some sampleDate, Before := some sampleDate }) :=
  (fetchGitLabEvents_terminates threePagesWorld sampleDate sampleDate sampleClient 3 rfl
    (fun _ _ => ⟨_, rfl, rfl, rfl, fun _ => rfl⟩)).1 3 (by decide)

/-! ## JSON strings: what is written reads back -/

theorem isHex_hexDigit (n : Nat) (h : n < 16) : isHex (hexDigit n) = true := by
  interval_cases n <;> decide

theorem hexValue_hexDigit (n : Nat) (h : n < 16) : hexValue (hexDigit n) = n := by
  interval_cases n <;> decide

theorem scanString_plain_cons (c : Char) (tl : List Char) (h1 : c ≠ '"') (h2 : c ≠ '\\')
    (h3 : ¬ c.toNat < 32) :
    scanString (c :: tl) = (scanString tl).map (fun p => (c :: p.1, p.2)) := by
  rw [scanString.eq_def]
  simp only [if_neg h1, if_neg h2, if_neg h3]

theorem scanString_simple (e : Char) (tl : List Char) (he : e ≠ 'u')
    (hs : isSimpleEscape e = true) :
    scanString ('\\' :: e :: tl) = (scanString tl).map (fun p => ('\\' :: e :: p.1, p.2)) := by
  rw [scanString.eq_def]
  simp only []
  rw [if_neg (by decide), if_pos trivial, if_neg he, if_pos hs]

theorem scanString_unicode (h1 h2 h3 h4 : Char) (tl : List Char)
    (hh : (isHex h1 && isHex h2 && isHex h3 && isHex h4) = true) :
    scanString ('\\' :: 'u' :: h1 :: h2 :: h3 :: h4 :: tl) =
      (scanString tl).map (fun p => ('\\' :: 'u' :: h1 :: h2 :: h3 :: h4 :: p.1, p.2)) := by
  rw [scanString.eq_def]
  simp only []
  rw [if_neg (by decide), if_pos trivial, if_pos trivial, if_pos hh]

theorem scanString_quote (rest : List Char) : scanString ('"' :: rest) = some ([], rest) := by
  rw [scanString.eq_def]
  simp only []
  rw [if_pos trivial]

theorem char_eq_ofNat (c : Char) (n : Nat) (h : c.toNat = n) : c = Char.ofNat n := by
  rw [← h, Char.ofNat_toNat]

/-- The three ways a character is written: a one-letter escape, a `\u` escape
with four hexadecimal digits of its code, or the character itself. -/
theorem escapeChar_cases (c : Char) :
    (∃ e, escapeChar c = ['\\', e] ∧ e ≠ 'u' ∧ isSimpleEscape e = true ∧ simpleEscape e = c) ∨
    (∃ h1 h2 h3 h4, escapeChar c = ['\\', 'u', h1, h2, h3, h4] ∧
      (isHex h1 && isHex h2 && isHex h3 && isHex h4) = true ∧
      ¬ ((decide (0xD800 ≤ hex4 h1 h2 h3 h4) && decide (hex4 h1 h2 h3 h4 < 0xE000)) = true) ∧
      Char.ofNat (hex4 h1 h2 h3 h4) = c) ∨
    (escapeChar c = [c] ∧ c ≠ '"' ∧ c ≠ '\\' ∧ ¬ c.toNat < 32) := by
  by_cases hlow : c.toNat < 32
  · have hc := char_eq_ofNat c c.toNat rfl
    generalize c.toNat = n at hc hlow
    subst hc
    by_cases hs : n = 8 ∨ n = 9 ∨ n = 10 ∨ n = 12 ∨ n = 13
    · rcases hs with rfl | rfl | rfl | rfl | rfl
      · exact Or.inl ⟨'b', by decide, by decide, by decide, by decide⟩
      · exact Or.inl ⟨'t', by decide, by decide, by decide, by decide⟩
      · exact Or.inl ⟨'n', by decide, by decide, by decide, by decide⟩
      · exact Or.inl ⟨'f', by decide, by decide, by decide, by decide⟩
      · exact Or.inl ⟨'r', by decide, by decide, by decide, by decide⟩
    · refine Or.inr (Or.inl ⟨'0', '0', hexDigit (n / 16), hexDigit (n % 16), ?_, ?_, ?_, ?_⟩) <;>
        (interval_cases n <;> first | decide | exact absurd (by decide) hs)
  by_cases h1 : c = '\\'
  · subst h1; exact Or.inl ⟨'\\', by decide, by decide, by decide, by decide⟩
  by_cases h2 : c = '"'
  · subst h2; exact Or.inl ⟨'"', by decide, by decide, by decide, by decide⟩
  by_cases h3 : c = '<'
  · subst h3
    exact Or.inr (Or.inl ⟨'0', '0', '3', 'c', by decide, by decide, by decide, by decide⟩)
  by_cases h4 : c = '>'
  · subst h4
    exact Or.inr (Or.inl ⟨'0', '0', '3', 'e', by decide, by decide, by decide, by decide⟩)
  by_cases h5 : c = '&'
  · subst h5
    exact Or.inr (Or.inl ⟨'0', '0', '2', '6', by decide, by decide, by decide, by decide⟩)
  by_cases h6 : c.toNat = 0x2028
  · have hc := char_eq_ofNat c _ h6
    subst hc
    exact Or.inr (Or.inl ⟨'2', '0', '2', '8', by decide, by decide, by decide, by decide⟩)
  by_cases h7 : c.toNat = 0x2029
  · have hc := char_eq_ofNat c _ h7
    subst hc
    exact Or.inr (Or.inl ⟨'2', '0', '2', '9', by decide, by decide, by decide, by decide⟩)
  refine Or.inr (Or.inr ⟨?_, h2, h1, hlow⟩)
  have hb : c ≠ '\x08' := fun h => hlow (by subst h; decide)
  have hf : c ≠ '\x0c' := fun h => hlow (by subst h; decide)
  have hn : c ≠ '\n' := fun h => hlow (by subst h; decide)
  have hr : c ≠ '\r' := fun h => hlow (by subst h; decide)
  have ht : c ≠ '\t' := fun h => hlow (by subst h; decide)
  have hesc : ¬ ((decide (c.toNat < 32) || decide (c = '<') || decide (c = '>')
      || decide (c = '&')) = true) := by
    simp [hlow, h3, h4, h5]
  unfold escapeChar
  rw [if_neg h1, if_neg h2, if_neg hb, if_neg hf, if_neg hn, if_neg hr, if_neg ht, if_neg hesc,
    if_neg h6, if_neg h7]

theorem scanString_escapeChar (c : Char) (tl raw rest : List Char)
    (h : scanString tl = some (raw, rest)) :
    scanString (escapeChar c ++ tl) = some (escapeChar c ++ raw, rest) := by
  rcases escapeChar_cases c with ⟨e, he, hu, hs, _⟩ | ⟨h1, h2, h3, h4, he, hh, _, _⟩ |
    ⟨he, hq, hb, hl⟩
  · rw [he]
    show scanString ('\\' :: e :: tl) = _
    rw [scanString_simple e tl hu hs, h]; rfl
  · rw [he]
    show scanString ('\\' :: 'u' :: h1 :: h2 :: h3 :: h4 :: tl) = _
    rw [scanString_unicode h1 h2 h3 h4 tl hh, h]; rfl
  · rw [he]
    show scanString (c :: tl) = _
    rw [scanString_plain_cons c tl hq hb hl, h]; rfl

/-- The text written for a string, followed by the closing quote, scans as
that text. -/
theorem scanString_escapeString (s rest : List Char) :
    scanString (escapeString s ++ '"' :: rest) = some (escapeString s, rest) := by
  induction s with
  | nil => exact scanString_quote rest
  | cons c s ih =>
    show scanString ((escapeChar c ++ escapeString s) ++ '"' :: rest) = _
    rw [List.append_assoc, scanString_escapeChar c _ _ _ ih]
    rfl

theorem isPlainChar_spec (c : Char) (h : isPlainChar c = true) :
    c ≠ '"' ∧ c ≠ '\\' ∧ ¬ c.toNat < 32 ∧ c ≠ '<' ∧ c ≠ '>' ∧ c ≠ '&' ∧
      c.toNat ≠ 0x2028 ∧ c.toNat ≠ 0x2029 := by
  simp only [isPlainChar, Bool.not_eq_true', Bool.or_eq_false_iff, decide_eq_false_iff_not] at h
  obtain ⟨⟨⟨⟨⟨⟨⟨a, b⟩, c1⟩, d⟩, e⟩, f⟩, g⟩, i⟩ := h
  exact ⟨a, b, c1, d, e, f, g, i⟩

/-- A text of plain characters, followed by the closing quote, scans as itself. -/
theorem scanString_plain (body rest : List Char) (h : body.all isPlainChar = true) :
    scanString (body ++ '"' :: rest) = some (body, rest) := by
  induction body with
  | nil => exact scanString_quote rest
  | cons c body ih =>
    simp only [List.all_cons, Bool.and_eq_true] at h
    obtain ⟨h1, h2, h3, _⟩ := isPlainChar_spec c h.1
    show scanString (c :: (body ++ '"' :: rest)) = _
    rw [scanString_plain_cons c _ h1 h2 h3, ih h.2]
    rfl

theorem unquoteAux_plain_cons (c : Char) (tl : List Char) (h1 : c ≠ '\\') (h2 : c ≠ '"')
    (h3 : ¬ c.toNat < 32) :
    unquoteAux none (c :: tl) = (unquoteAux none tl).map (List.cons c) := by
  have hq : ¬ ((decide (c = '"') || decide (c.toNat < 32)) = true) := by simp [h2, h3]
  rw [unquoteAux.eq_def]
  simp only []
  rw [if_neg h1, if_neg hq]
  rfl

theorem unquoteAux_simple (e : Char) (tl : List Char) (he : e ≠ 'u')
    (hs : isSimpleEscape e = true) :
    unquoteAux none ('\\' :: e :: tl) = (unquoteAux none tl).map (List.cons (simpleEscape e)) := by
  rw [unquoteAux.eq_def]
  simp only []
  rw [if_pos trivial, if_neg he, if_pos hs]
  rfl

theorem unquoteAux_unicode (h1 h2 h3 h4 : Char) (tl : List Char)
    (hh : (isHex h1 && isHex h2 && isHex h3 && isHex h4) = true)
    (hs : ¬ ((decide (0xD800 ≤ hex4 h1 h2 h3 h4) && decide (hex4 h1 h2 h3 h4 < 0xE000)) = true)) :
    unquoteAux none ('\\' :: 'u' :: h1 :: h2 :: h3 :: h4 :: tl) =
      (unquoteAux none tl).map (List.cons (Char.ofNat (hex4 h1 h2 h3 h4))) := by
  rw [unquoteAux.eq_def]
  simp only []
  rw [if_pos trivial, if_pos trivial, if_pos hh, if_neg hs]

theorem unquoteAux_escapeChar (c : Char) (tl : List Char) :
    unquoteAux none (escapeChar c ++ tl) = (unquoteAux none tl).map (List.cons c) := by
  rcases escapeChar_cases c with ⟨e, he, hu, hs, hc⟩ | ⟨h1, h2, h3, h4, he, hh, hns, hc⟩ |
    ⟨he, hq, hb, hl⟩
  · rw [he]
    show unquoteAux none ('\\' :: e :: tl) = _
    rw [unquoteAux_simple e tl hu hs, hc]
  · rw [he]
    show unquoteAux none ('\\' :: 'u' :: h1 :: h2 :: h3 :: h4 :: tl) = _
    rw [unquoteAux_unicode h1 h2 h3 h4 tl hh hns, hc]
  · rw [he]
    show unquoteAux none (c :: tl) = _
    rw [unquoteAux_plain_cons c tl hb hq hl]

/-- The text written for a string decodes to the string. -/
theorem unquote_escapeString (s : List Char) : unquote (escapeString s) = some s := by
  unfold unquote
  induction s with
  | nil => rfl
  | cons c s ih =>
    show unquoteAux none (escapeChar c ++ escapeString s) = _
    rw [unquoteAux_escapeChar, ih]
    rfl

/-! ## JSON integers: what is written reads back -/

theorem digitChar_facts (d : Nat) (h : d < 10) :
    isDigit (digitChar d) = true ∧ (digitChar d).toNat - 48 = d ∧ digitChar d ≠ '-' ∧
      (d ≠ 0 → digitChar d ≠ '0') := by
  interval_cases d <;> decide

theorem formatNatAux_eq (n : Nat) :
    ∀ (fuel : Nat) (acc : List Char), n < fuel →
      formatNatAux fuel n acc =
        (if n < 10 then [digitChar n] else formatNat (n / 10) ++ [digitChar (n % 10)]) ++ acc := by
  induction n using Nat.strong_induction_on with
  | _ n ih =>
    intro fuel acc hfuel
    obtain ⟨fuel, rfl⟩ : ∃ k, fuel = k + 1 := ⟨fuel - 1, by omega⟩
    rw [formatNatAux]
    by_cases hn : n < 10
    · rw [if_pos hn, if_pos hn]; rfl
    · rw [if_neg hn, if_neg hn]
      have hdiv : n / 10 < n := Nat.div_lt_self (by omega) (by decide)
      rw [ih (n / 10) hdiv fuel _ (by omega)]
      have hself : formatNat (n / 10) =
          (if n / 10 < 10 then [digitChar (n / 10)]
            else formatNat (n / 10 / 10) ++ [digitChar (n / 10 % 10)]) := by
        have := ih (n / 10) hdiv (n / 10 + 1) [] (by omega)
        rw [List.append_nil] at this
        exact this
      rw [← hself, List.append_assoc]
      rfl

/-- The decimal text of a number: one digit below ten, otherwise the text of
the tens followed by the last digit. -/
theorem formatNat_eq (n : Nat) :
    formatNat n =
      if n < 10 then [digitChar n] else formatNat (n / 10) ++ [digitChar (n % 10)] := by
  have := formatNatAux_eq n (n + 1) [] (by omega)
  rw [List.append_nil] at this
  exact this

theorem digitsValue_append (xs : List Char) (d : Char) :
    digitsValue (xs ++ [d]) = digitsValue xs * 10 + (d.toNat - 48) := by
  simp [digitsValue, List.foldl_append]

/-- The text of a number consists of digits, stands for the number, and starts
with a digit that is `0` only for the number 0. -/
theorem formatNat_facts (n : Nat) :
    (formatNat n).all isDigit = true ∧ digitsValue (formatNat n) = n ∧
      ∃ c cs, formatNat n = c :: cs ∧ isDigit c = true ∧ c ≠ '-' ∧ (n ≠ 0 → c ≠ '0') := by
  induction n using Nat.strong_induction_on with
  | _ n ih =>
    rw [formatNat_eq]
    by_cases hn : n < 10
    · rw [if_pos hn]
      obtain ⟨h1, h2, h3, h4⟩ := digitChar_facts n hn
      refine ⟨by simp [h1], ?_, digitChar n, [], rfl, h1, h3, h4⟩
      simp [digitsValue, h2]
    · rw [if_neg hn]
      have hdiv : n / 10 < n := Nat.div_lt_self (by omega) (by decide)
      obtain ⟨ha, hv, c, cs, hc, hd, hm, hz⟩ := ih (n / 10) hdiv
      obtain ⟨h1, h2, _, _⟩ := digitChar_facts (n % 10) (Nat.mod_lt _ (by decide))
      refine ⟨?_, ?_, c, cs ++ [digitChar (n % 10)], by rw [hc]; rfl, hd, hm, fun _ => hz (by omega)⟩
      · rw [List.all_append, ha]
        simp [h1]
      · rw [digitsValue_append, hv, h2]
        omega

theorem spanDigits_digits (ds rest : List Char) (h : ds.all isDigit = true) :
    spanDigits (ds ++ ',' :: rest) = (ds, ',' :: rest) := by
  induction ds with
  | nil =>
    show spanDigits (',' :: rest) = _
    rw [spanDigits, if_neg (by decide)]
  | cons d ds ih =>
    simp only [List.all_cons, Bool.and_eq_true] at h
    show spanDigits (d :: (ds ++ ',' :: rest)) = _
    rw [spanDigits, if_pos h.1, ih h.2]

theorem scanFraction_comma (acc rest : List Char) :
    scanFraction acc (',' :: rest) = some (acc, ',' :: rest) := by
  rw [scanFraction, if_neg (by decide), scanExponent.eq_def]
  simp only []
  rw [if_neg (by decide)]

theorem scanUnsigned_formatNat (acc rest : List Char) (n : Nat) :
    scanUnsigned acc (formatNat n ++ ',' :: rest) = some (acc ++ formatNat n, ',' :: rest) := by
  obtain ⟨hall, _, c, cs, hc, hd, _, hz⟩ := formatNat_facts n
  rw [hc] at hall ⊢
  simp only [List.all_cons, Bool.and_eq_true] at hall
  show scanUnsigned acc (c :: (cs ++ ',' :: rest)) = _
  rw [scanUnsigned]
  by_cases h0 : c = '0'
  · rw [if_pos h0]
    have hn : n = 0 := by
      by_contra hne
      exact hz hne h0
    subst hn
    have hcs : cs = [] := by
      have : formatNat 0 = ['0'] := by decide
      rw [this] at hc
      simp only [List.cons.injEq] at hc
      exact hc.2.symm
    subst hcs
    exact scanFraction_comma _ _
  · rw [if_neg h0, if_pos hd, spanDigits_digits cs rest hall.2]
    exact scanFraction_comma _ _

/-- The text of an integer, followed by a comma, scans as that text. -/
theorem scanNumber_formatInt (i : Int) (rest : List Char) :
    scanNumber (formatInt i ++ ',' :: rest) = some (formatInt i, ',' :: rest) := by
  cases i with
  | ofNat n =>
    obtain ⟨_, _, c, cs, hc, _, hm, _⟩ := formatNat_facts n
    have h := scanUnsigned_formatNat [] rest n
    show scanNumber (formatNat n ++ ',' :: rest) = some (formatNat n, ',' :: rest)
    rw [hc] at h ⊢
    show scanNumber (c :: (cs ++ ',' :: rest)) = _
    rw [scanNumber, if_neg hm]
    exact h
  | negSucc n =>
    show scanNumber ('-' :: (formatNat (n + 1) ++ ',' :: rest)) = _
    rw [scanNumber, if_pos rfl]
    exact scanUnsigned_formatNat ['-'] rest (n + 1)

/-- The first character of the text of an integer is a minus sign or a digit. -/
theorem formatInt_head (i : Int) :
    ∃ c cs, formatInt i = c :: cs ∧ (c = '-' ∨ isDigit c = true) := by
  cases i with
  | ofNat n =>
    obtain ⟨_, _, c, cs, hc, hd, _, _⟩ := formatNat_facts n
    exact ⟨c, cs, hc, Or.inr hd⟩
  | negSucc n => exact ⟨'-', formatNat (n + 1), rfl, Or.inl rfl⟩

/-- The text of a Go `int` reads back as that `int`. -/
theorem parseInt64_formatInt (i : Int) (hlo : minInt64 ≤ i) (hhi : i ≤ maxInt64) :
    parseInt64 (formatInt i) = some i := by
  cases i with
  | ofNat n =>
    obtain ⟨hall, hv, c, cs, hc, _, hm, _⟩ := formatNat_facts n
    show parseInt64 (formatNat n) = _
    rw [hc] at hall hv ⊢
    rw [parseInt64]
    rw [if_neg hm, hv, if_pos ⟨hall, hhi⟩]
    rfl
  | negSucc n =>
    obtain ⟨hall, hv, c, cs, hc, _, _, _⟩ := formatNat_facts (n + 1)
    show parseInt64 ('-' :: formatNat (n + 1)) = _
    rw [parseInt64]
    rw [if_pos rfl, hv]
    have hne : formatNat (n + 1) ≠ [] := by rw [hc]; exact List.cons_ne_nil _ _
    have hneg : -((n + 1 : Nat) : Int) = Int.negSucc n := rfl
    rw [if_pos ⟨hne, hall, by rw [hneg]; exact hlo⟩, hneg]

/-! ## Parsing what was printed -/

theorem skipSpace_cons_of_not_space (c : Char) (rest : List Char) (h : isSpace c = false) :
    skipSpace (c :: rest) = c :: rest := by
  rw [skipSpace, h]; rfl

theorem skipSpace_cons_of_space (c : Char) (rest : List Char) (h : isSpace c = true) :
    skipSpace (c :: rest) = skipSpace rest := by
  rw [skipSpace, if_pos h]

theorem skipSpace_spaces (k : Nat) (c : Char) (rest : List Char) (h : isSpace c = false) :
    skipSpace (List.replicate k ' ' ++ c :: rest) = c :: rest := by
  induction k with
  | zero => exact skipSpace_cons_of_not_space c rest h
  | succ k ih =>
    show skipSpace (' ' :: (List.replicate k ' ' ++ c :: rest)) = _
    rw [skipSpace, if_pos (by decide), ih]

theorem skipSpace_newline (d : Nat) (c : Char) (rest : List Char) (h : isSpace c = false) :
    skipSpace (newline d ++ c :: rest) = c :: rest := by
  show skipSpace ('\n' :: (List.replicate (2 * d) ' ' ++ c :: rest)) = _
  rw [skipSpace, if_pos (by decide), skipSpace_spaces _ c rest h]

theorem parseValue_space (fuel n : Nat) (c : Char) (rest : List Char) (h : isSpace c = true) :
    parseValue (fuel + 1) n (c :: rest) = parseValue (fuel + 1) n rest := by
  rw [parseValue, parseValue, skipSpace_cons_of_space c rest h]

theorem parseValue_spaces (fuel n k : Nat) (rest : List Char) :
    parseValue (fuel + 1) n (List.replicate k ' ' ++ rest) = parseValue (fuel + 1) n rest := by
  induction k with
  | zero => rfl
  | succ k ih =>
    show parseValue (fuel + 1) n (' ' :: (List.replicate k ' ' ++ rest)) = _
    rw [parseValue_space fuel n ' ' _ (by decide), ih]

theorem parseValue_newline (fuel n d : Nat) (rest : List Char) :
    parseValue (fuel + 1) n (newline d ++ rest) = parseValue (fuel + 1) n rest := by
  show parseValue (fuel + 1) n ('\n' :: (List.replicate (2 * d) ' ' ++ rest)) = _
  rw [parseValue_space fuel n '\n' _ (by decide), parseValue_spaces]

theorem parseValue_null (fuel n : Nat) (rest : List Char) :
    parseValue (fuel + 1) n ('n' :: 'u' :: 'l' :: 'l' :: rest) = some (JSON.null, rest) := by
  rw [parseValue, skipSpace_cons_of_not_space _ _ (by decide)]
  simp only []
  rw [if_neg (by decide), if_neg (by decide), if_neg (by decide), if_neg (by decide),
    if_pos (by first | rfl | trivial)]
  rfl

theorem parseValue_string (fuel n : Nat) (tl : List Char) :
    parseValue (fuel + 1) n ('"' :: tl) = (scanString tl).map (fun p => (JSON.str p.1, p.2)) := by
  rw [parseValue, skipSpace_cons_of_not_space _ _ (by decide)]
  simp only []
  rw [if_neg (by decide), if_neg (by decide), if_pos (by first | rfl | trivial)]

theorem digit_or_minus_facts (c : Char) (h : c = '-' ∨ isDigit c = true) :
    isSpace c = false ∧ c ≠ '{' ∧ c ≠ '[' ∧ c ≠ '"' ∧
      (decide (c = '-') || isDigit c) = true := by
  rcases h with h | h
  · subst h; decide
  · have hc := char_eq_ofNat c c.toNat rfl
    have hr : 48 ≤ c.toNat ∧ c.toNat ≤ 57 := by
      simpa [isDigit] using h
    generalize c.toNat = n at hc hr
    subst hc
    obtain ⟨h1, h2⟩ := hr
    interval_cases n <;> decide

theorem parseValue_number (fuel n : Nat) (c : Char) (rest : List Char)
    (h : c = '-' ∨ isDigit c = true) :
    parseValue (fuel + 1) n (c :: rest) =
      (scanNumber (c :: rest)).map (fun p => (JSON.num p.1, p.2)) := by
  obtain ⟨hs, h1, h2, h3, h4⟩ := digit_or_minus_facts c h
  rw [parseValue, skipSpace_cons_of_not_space _ _ hs]
  simp only []
  rw [if_neg h1, if_neg h2, if_neg h3, if_pos h4]

/-- The text of an integer, followed by a comma, parses as that number. -/
theorem parseValue_formatInt (fuel n : Nat) (i : Int) (rest : List Char) :
    parseValue (fuel + 1) n (formatInt i ++ ',' :: rest) =
      some (JSON.num (formatInt i), ',' :: rest) := by
  have hscan := scanNumber_formatInt i rest
  obtain ⟨c, cs, hc, hd⟩ := formatInt_head i
  rw [hc] at hscan ⊢
  show parseValue (fuel + 1) n (c :: (cs ++ ',' :: rest)) = _
  rw [parseValue_number fuel n c _ hd]
  show Option.map _ (scanNumber (c :: cs ++ ',' :: rest)) = _
  rw [hscan]
  rfl

theorem parseValue_object (fuel n : Nat) (d : Nat) (rest : List Char)
    (hn : n < maxNestingDepth) :
    parseValue (fuel + 1) n ('{' :: (newline d ++ '"' :: rest)) =
      (parseMembers fuel (n + 1) ('"' :: rest)).map (fun p => (JSON.obj p.1, p.2)) := by
  rw [parseValue, skipSpace_cons_of_not_space _ _ (by decide)]
  simp only []
  rw [if_pos (by first | rfl | trivial), if_neg (Nat.not_le.mpr hn),
    skipSpace_newline d '"' rest (by decide)]
  simp only []
  rw [if_neg (by decide)]

theorem parseValue_array (fuel n : Nat) (d : Nat) (c : Char) (rest : List Char)
    (hn : n < maxNestingDepth) (hs : isSpace c = false) (hc : c ≠ ']') :
    parseValue (fuel + 1) n ('[' :: (newline d ++ c :: rest)) =
      (parseElems fuel (n + 1) (c :: rest)).map (fun p => (JSON.arr p.1, p.2)) := by
  rw [parseValue, skipSpace_cons_of_not_space _ _ (by decide)]
  simp only []
  rw [if_neg (by decide), if_pos (by first | rfl | trivial), if_neg (Nat.not_le.mpr hn),
    skipSpace_newline d c rest hs]
  simp only []
  rw [if_neg hc]

theorem parseValue_empty_array (fuel n : Nat) (rest : List Char)
    (hn : n < maxNestingDepth) :
    parseValue (fuel + 1) n ('[' :: ']' :: rest) = some (JSON.arr [], rest) := by
  rw [parseValue, skipSpace_cons_of_not_space _ _ (by decide)]
  simp only []
  rw [if_neg (by decide), if_pos (by first | rfl | trivial), if_neg (Nat.not_le.mpr hn),
    skipSpace_cons_of_not_space _ _ (by decide)]
  simp only []
  rw [if_pos (by first | rfl | trivial)]

/-- A member that is followed by another one: the key is plain text, the value
parses and a comma follows it. -/
theorem parseMembers_more (fuel n : Nat) (key tl rest : List Char) (v : JSON)
    (hkey : key.all isPlainChar = true)
    (hv : parseValue fuel n tl = some (v, ',' :: rest)) :
    parseMembers (fuel + 1) n ('"' :: (key ++ '"' :: ':' :: tl)) =
      (parseMembers fuel n rest).map (fun p => ((key, v) :: p.1, p.2)) := by
  rw [parseMembers, skipSpace_cons_of_not_space _ _ (by decide)]
  simp only []
  rw [if_pos (by first | rfl | trivial), scanString_plain key _ hkey]
  simp only []
  rw [skipSpace_cons_of_not_space _ _ (by decide)]
  simp only []
  rw [if_pos (by first | rfl | trivial), hv]
  simp only []
  rw [skipSpace_cons_of_not_space _ _ (by decide)]
  simp only []
  rw [if_pos (by first | rfl | trivial)]

/-- The last member of an object: the key is plain text, the value parses and
the closing brace follows it on the next line. -/
theorem parseMembers_last (fuel n d : Nat) (key tl rest : List Char) (v : JSON)
    (hkey : key.all isPlainChar = true)
    (hv : parseValue fuel n tl = some (v, newline d ++ '}' :: rest)) :
    parseMembers (fuel + 1) n ('"' :: (key ++ '"' :: ':' :: tl)) = some ([(key, v)], rest) := by
  rw [parseMembers, skipSpace_cons_of_not_space _ _ (by decide)]
  simp only []
  rw [if_pos (by first | rfl | trivial), scanString_plain key _ hkey]
  simp only []
  rw [skipSpace_cons_of_not_space _ _ (by decide)]
  simp only []
  rw [if_pos (by first | rfl | trivial), hv]
  simp only []
  rw [skipSpace_newline d '}' rest (by decide)]
  simp only []
  rw [if_neg (by decide), if_pos (by first | rfl | trivial)]

theorem parseMembers_newline (fuel n d : Nat) (rest : List Char) :
    parseMembers (fuel + 1) n (newline d ++ '"' :: rest) = parseMembers (fuel + 1) n ('"' :: rest) := by
  rw [parseMembers, parseMembers, skipSpace_newline d '"' rest (by decide),
    skipSpace_cons_of_not_space _ _ (by decide)]

/-! ## The JSON text of a time: what is written reads back -/

theorem isDigit_digitChar (n : Nat) : isDigit (digitChar (n % 10)) = true :=
  (digitChar_facts (n % 10) (Nat.mod_lt _ (by decide))).1

theorem value_digitChar (n : Nat) : (digitChar (n % 10)).toNat - 48 = n % 10 :=
  (digitChar_facts (n % 10) (Nat.mod_lt _ (by decide))).2.1

theorem isPlainChar_digitChar (n : Nat) : isPlainChar (digitChar (n % 10)) = true := by
  have h : n % 10 < 10 := Nat.mod_lt _ (by decide)
  generalize n % 10 = d at h
  interval_cases d <;> decide

theorem digitsIn_twoDigits (lo hi n : Nat) (h : n < 100) (hlo : lo ≤ n) (hhi : n ≤ hi) :
    digitsIn lo hi (twoDigits n) = some n := by
  have hv : digitsValue (twoDigits n) = n := by
    simp only [twoDigits, digitsValue, List.foldl_cons, List.foldl_nil, value_digitChar]
    omega
  have hd : (twoDigits n).all isDigit = true := by
    simp only [twoDigits, List.all_cons, List.all_nil, isDigit_digitChar, Bool.and_self]
  rw [digitsIn, hv, if_pos ⟨hd, hlo, hhi⟩]

theorem digitsIn_fourDigits (lo hi n : Nat) (h : n < 10000) (hlo : lo ≤ n) (hhi : n ≤ hi) :
    digitsIn lo hi (fourDigits n) = some n := by
  have hv : digitsValue (fourDigits n) = n := by
    simp only [fourDigits, digitsValue, List.foldl_cons, List.foldl_nil, value_digitChar]
    omega
  have hd : (fourDigits n).all isDigit = true := by
    simp only [fourDigits, List.all_cons, List.all_nil, isDigit_digitChar, Bool.and_self]
  rw [digitsIn, hv, if_pos ⟨hd, hlo, hhi⟩]

theorem nineDigits_facts (n : Nat) (h : n < 1000000000) :
    (nineDigits n).all isDigit = true ∧ digitsValue (nineDigits n) = n ∧
      (nineDigits n).length = 9 := by
  refine ⟨?_, ?_, rfl⟩
  · simp only [nineDigits, List.all_cons, List.all_nil, isDigit_digitChar, Bool.and_self]
  · simp only [nineDigits, digitsValue, List.foldl_cons, List.foldl_nil, value_digitChar]
    omega

theorem trimZeros_append_zero (l : List Char) : trimZeros (l ++ ['0']) = trimZeros l := by
  simp [trimZeros, List.dropWhile_cons]

theorem trimZeros_append_of_ne (l : List Char) (c : Char) (h : c ≠ '0') :
    trimZeros (l ++ [c]) = l ++ [c] := by
  simp [trimZeros, List.dropWhile_cons, h]

/-- A text is what is left of it without the zeros at its end, and these zeros. -/
theorem trimZeros_spec (l : List Char) :
    ∃ k, l = trimZeros l ++ List.replicate k '0' := by
  induction l using List.reverseRecOn with
  | nil => exact ⟨0, rfl⟩
  | append_singleton l c ih =>
    by_cases hc : c = '0'
    · obtain ⟨k, hk⟩ := ih
      refine ⟨k + 1, ?_⟩
      rw [hc, trimZeros_append_zero, List.replicate_succ', ← List.append_assoc, ← hk]
    · exact ⟨0, by rw [trimZeros_append_of_ne l c hc]; simp⟩

theorem digitsValue_append_zeros (ds : List Char) (k : Nat) :
    digitsValue (ds ++ List.replicate k '0') = digitsValue ds * 10 ^ k := by
  induction k with
  | zero => simp
  | succ k ih =>
    rw [List.replicate_succ', ← List.append_assoc, digitsValue_append, ih, pow_succ]
    have : ('0' : Char).toNat - 48 = 0 := by decide
    rw [this]
    ring

theorem spanDigits_append (ds : List Char) (c : Char) (rest : List Char)
    (h : ds.all isDigit = true) (hc : isDigit c = false) :
    spanDigits (ds ++ c :: rest) = (ds, c :: rest) := by
  induction ds with
  | nil =>
    show spanDigits (c :: rest) = _
    rw [spanDigits, hc]
    rfl
  | cons d ds ih =>
    simp only [List.all_cons, Bool.and_eq_true] at h
    show spanDigits (d :: (ds ++ c :: rest)) = _
    rw [spanDigits, if_pos h.1, ih h.2]

/-- The fraction that was written, followed by a zone, reads back. -/
theorem parseFraction_formatFraction (nano : Nat) (h : nano < 1000000000) (c : Char)
    (rest : List Char) (hc : isDigit c = false) (hp : c ≠ '.') :
    parseFraction (formatFraction nano ++ c :: rest) = (nano, c :: rest) := by
  unfold formatFraction
  by_cases h0 : nano = 0
  · rw [if_pos h0, h0]
    show parseFraction (c :: rest) = _
    cases rest with
    | nil => rfl
    | cons d rest =>
      rw [parseFraction, if_neg (fun hh => hp hh.1)]
  · rw [if_neg h0]
    obtain ⟨hd, hv, hl⟩ := nineDigits_facts nano h
    obtain ⟨k, hk⟩ := trimZeros_spec (nineDigits nano)
    have hdt : (trimZeros (nineDigits nano)).all isDigit = true := by
      rw [hk, List.all_append, Bool.and_eq_true] at hd
      exact hd.1
    have hvt : digitsValue (trimZeros (nineDigits nano)) * 10 ^ k = nano := by
      rw [← digitsValue_append_zeros, ← hk, hv]
    have hlt : (trimZeros (nineDigits nano)).length + k = 9 := by
      have := congrArg List.length hk
      rw [List.length_append, List.length_replicate, hl] at this
      exact this.symm
    generalize trimZeros (nineDigits nano) = ds at hdt hvt hlt
    cases ds with
    | nil =>
      simp [digitsValue] at hvt
      exact absurd hvt.symm h0
    | cons d tl =>
      have hd1 : isDigit d = true := by
        simp only [List.all_cons, Bool.and_eq_true] at hdt
        exact hdt.1
      show parseFraction ('.' :: d :: (tl ++ c :: rest)) = _
      rw [parseFraction, if_pos ⟨rfl, hd1⟩]
      have hspan := spanDigits_append (d :: tl) c rest hdt hc
      rw [List.cons_append] at hspan
      rw [hspan]
      have htake : (d :: tl).take 9 = d :: tl := List.take_of_length_le (by omega)
      have hk9 : 9 - (d :: tl).length = k := by omega
      simp only [nanoseconds, htake, hk9, hvt]

/-- The zone that was written reads back when the offset is a whole number of
minutes, less than 24 hours. -/
theorem parseZone_formatZone (offset : Int) (h1 : offset.natAbs % 60 = 0)
    (h2 : offset.natAbs < 86400) : parseZone (formatZone offset) = some offset := by
  unfold formatZone
  by_cases h0 : offset = 0
  · rw [if_pos h0, h0]; rfl
  · rw [if_neg h0]
    have hh := digitsIn_twoDigits 0 23 (offset.natAbs / 60 / 60) (by omega) (by omega) (by omega)
    have hm := digitsIn_twoDigits 0 59 (offset.natAbs / 60 % 60) (by omega) (by omega) (by omega)
    have habs := Int.natAbs_eq offset
    have hpos : 0 < offset.natAbs := Int.natAbs_pos.mpr h0
    generalize offset.natAbs = a at *
    simp only [twoDigits] at hh hm ⊢
    by_cases hneg : offset < 0 ∧ a / 60 ≠ 0
    · rw [if_pos hneg]
      unfold parseZone
      rw [if_neg (by simp)]
      simp only [List.cons_append, List.nil_append, hh, hm]
      simp only [true_or, and_self, if_true]
      congr 1
      push_cast
      omega
    · rw [if_neg hneg]
      unfold parseZone
      rw [if_neg (by simp)]
      simp only [List.cons_append, List.nil_append, hh, hm]
      have hpm : ¬ ('+' : Char) = '-' := by decide
      simp only [or_true, and_self, if_true, hpm, if_false]
      congr 1
      push_cast
      omega

theorem formatZone_head (offset : Int) :
    ∃ c rest, formatZone offset = c :: rest ∧ isDigit c = false ∧ c ≠ '.' := by
  unfold formatZone
  by_cases h0 : offset = 0
  · rw [if_pos h0]; exact ⟨'Z', [], rfl, by decide, by decide⟩
  · rw [if_neg h0]
    by_cases hneg : offset < 0 ∧ offset.natAbs / 60 ≠ 0
    · rw [if_pos hneg]; exact ⟨'-', _, rfl, by decide, by decide⟩
    · rw [if_neg hneg]; exact ⟨'+', _, rfl, by decide, by decide⟩

/-- The RFC 3339 text of a well-formed time with a JSON form reads back as the
time. -/
theorem parseRFC3339_formatRFC3339 (t : Time) (hw : t.wellFormed = true)
    (hj : t.hasJSONForm = true) : parseRFC3339 (formatRFC3339 t) = some t := by
  simp only [Time.wellFormed, Bool.and_eq_true, decide_eq_true_eq] at hw
  obtain ⟨⟨⟨⟨⟨⟨⟨hm1, hm2⟩, hd1⟩, hd2⟩, hh⟩, hmi⟩, hs⟩, hn⟩ := hw
  simp only [Time.hasJSONForm, Bool.and_eq_true, decide_eq_true_eq] at hj
  obtain ⟨⟨⟨hy1, hy2⟩, hz1⟩, hz2⟩ := hj
  have hday : daysIn t.month t.year ≤ 31 := by
    unfold daysIn; split_ifs <;> omega
  have hyear : (t.year.toNat : Int) = t.year := Int.toNat_of_nonneg hy1
  have e1 := digitsIn_fourDigits 0 9999 t.year.toNat (by omega) (by omega) (by omega)
  have e2 := digitsIn_twoDigits 1 12 t.month (by omega) hm1 hm2
  have e3 := digitsIn_twoDigits 1 (daysIn t.month t.year) t.day (by omega) hd1 hd2
  have e4 := digitsIn_twoDigits 0 23 t.hour (by omega) (by omega) (by omega)
  have e5 := digitsIn_twoDigits 0 59 t.minute (by omega) (by omega) (by omega)
  have e6 := digitsIn_twoDigits 0 59 t.second (by omega) (by omega) (by omega)
  obtain ⟨c, rest, hc, hcd, hcp⟩ := formatZone_head t.zoneOffset
  have e7 := parseFraction_formatFraction t.nanosecond hn c rest hcd hcp
  have e8 := parseZone_formatZone t.zoneOffset hz1 hz2
  rw [← hc] at e7
  simp only [twoDigits, fourDigits] at e1 e2 e3 e4 e5 e6
  simp only [formatRFC3339, twoDigits, fourDigits, List.cons_append, List.nil_append,
    parseRFC3339, e1, e2, e4, e5, e6, hyear, e3, e7, e8]
  simp

theorem trimZeros_all (p : Char → Bool) (l : List Char) (h : l.all p = true) :
    (trimZeros l).all p = true := by
  obtain ⟨k, hk⟩ := trimZeros_spec l
  rw [hk, List.all_append, Bool.and_eq_true] at h
  exact h.1

/-- The RFC 3339 text of a time consists of characters that a JSON string
carries as they are. -/
theorem formatRFC3339_plain (t : Time) : (formatRFC3339 t).all isPlainChar = true := by
  have hfrac : (formatFraction t.nanosecond).all isPlainChar = true := by
    unfold formatFraction
    split_ifs
    · rfl
    · rw [List.all_cons, trimZeros_all isPlainChar _ (by
        simp only [nineDigits, List.all_cons, List.all_nil, isPlainChar_digitChar,
          Bool.and_self])]
      decide
  have hzone : (formatZone t.zoneOffset).all isPlainChar = true := by
    unfold formatZone
    split_ifs
    · decide
    · simp only [twoDigits, List.cons_append, List.nil_append, List.all_cons, List.all_nil,
        isPlainChar_digitChar, Bool.and_self, Bool.and_true, Bool.true_and]
      decide
    · simp only [twoDigits, List.cons_append, List.nil_append, List.all_cons, List.all_nil,
        isPlainChar_digitChar, Bool.and_self, Bool.and_true, Bool.true_and]
      decide
  have hsep : isPlainChar '-' = true ∧ isPlainChar 'T' = true ∧ isPlainChar ':' = true := by
    decide
  simp only [formatRFC3339, twoDigits, fourDigits, List.cons_append, List.nil_append,
    List.all_cons, List.all_append, isPlainChar_digitChar, hfrac, hzone, hsep.1, hsep.2.1,
    hsep.2.2, Bool.and_self]

/-- Go writes a well-formed time with a JSON form as a quoted text of plain
characters, and reads that text back as the time. -/
theorem goTime_readsBack (t : Time) (hw : t.wellFormed = true) (hj : t.hasJSONForm = true) :
    goTime.ReadsBack t := by
  have hparse := parseRFC3339_formatRFC3339 t hw hj
  simp only [Time.hasJSONForm, Bool.and_eq_true, decide_eq_true_eq] at hj
  obtain ⟨⟨⟨hy1, hy2⟩, hz1⟩, hz2⟩ := hj
  refine ⟨formatRFC3339 t, formatRFC3339_plain t, ?_, ?_⟩
  · show timeMarshalJSON t = _
    unfold timeMarshalJSON
    rw [if_neg (by omega), if_neg (by omega)]
  · show timeUnmarshalJSON ('"' :: formatRFC3339 t ++ ['"']) = Except.ok t
    unfold timeUnmarshalJSON
    rw [if_neg (by simp)]
    show (if ('"' : Char) = '"' ∧ (formatRFC3339 t ++ ['"']).getLast? = some '"' then
        (match parseRFC3339 (formatRFC3339 t ++ ['"']).dropLast with
          | some t => Except.ok t
          | none => Except.error ("parsing time " ++ String.mk ('"' :: formatRFC3339 t ++ ['"'])))
      else Except.error "Time.UnmarshalJSON: input is not a JSON string") = Except.ok t
    rw [if_pos ⟨rfl, by simp⟩]
    simp only [List.dropLast_concat, hparse]

/-! ## Encoding representable events -/

theorem htmlEscapeRaw_plain (body : List Char) (h : body.all isPlainChar = true) :
    htmlEscapeRaw body = body := by
  induction body with
  | nil => rfl
  | cons c body ih =>
    simp only [List.all_cons, Bool.and_eq_true] at h
    obtain ⟨_, _, _, h1, h2, h3, h4, h5⟩ := isPlainChar_spec c h.1
    have hesc : ¬ ((decide (c = '<') || decide (c = '>') || decide (c = '&')) = true) := by
      simp [h1, h2, h3]
    rw [htmlEscapeRaw, if_neg hesc, if_neg h4, if_neg h5, ih h.2]

theorem parseJSON_plain_string (body : List Char) (h : body.all isPlainChar = true) :
    parseJSON ('"' :: body ++ ['"']) = some (JSON.str body) := by
  unfold parseJSON
  show (match parseValue (2 * ('"' :: body ++ ['"']).length + 1 + 1) 0 ('"' :: (body ++ ['"'])) with
    | none => none
    | some (v, rest) => if skipSpace rest = [] then some v else none) = _
  rw [parseValue_string, scanString_plain body [] h]
  rfl

/-- A time whose text form reads back is encoded as a string that reads back. -/
theorem marshalCreatedAt_representable (tc : TimeCodec) (createdAt : Option Time)
    (h : ∀ t, createdAt = some t → tc.ReadsBack t) :
    ∃ created, marshalCreatedAt tc createdAt = .ok created ∧ CreatedAs tc createdAt created := by
  cases createdAt with
  | none => exact ⟨JSON.null, rfl, Or.inl ⟨rfl, rfl⟩⟩
  | some t =>
    obtain ⟨body, hplain, hm, hu⟩ := h t rfl
    refine ⟨JSON.str body, ?_, Or.inr ⟨t, body, rfl, rfl, hplain, hu⟩⟩
    show marshalTime tc t = _
    unfold marshalTime
    rw [hm]
    simp only []
    rw [parseJSON_plain_string body hplain]
    simp only [JSON.htmlEscape, htmlEscapeRaw_plain body hplain]

theorem representable_spec (e : GitLabEvent) (h : e.representable = true) :
    minInt64 ≤ e.ID ∧ e.ID ≤ maxInt64 ∧ ∀ t, e.CreatedAt = some t → goTime.ReadsBack t := by
  simp only [GitLabEvent.representable, Bool.and_eq_true, decide_eq_true_eq] at h
  obtain ⟨⟨hlo, hhi⟩, ht⟩ := h
  refine ⟨hlo, hhi, fun t hc => ?_⟩
  rw [hc] at ht
  simp only [Bool.and_eq_true] at ht
  exact goTime_readsBack t ht.1 ht.2

theorem marshalElem_representable (elem : Option GitLabEvent)
    (h : ∀ e, elem = some e → e.representable = true) :
    ∃ j, marshalElem goTime elem = .ok j ∧ ElemAs goTime elem j := by
  cases elem with
  | none => exact ⟨JSON.null, rfl, Or.inl ⟨rfl, rfl⟩⟩
  | some e =>
    obtain ⟨hlo, hhi, htime⟩ := representable_spec e (h e rfl)
    obtain ⟨created, hc, has⟩ := marshalCreatedAt_representable goTime e.CreatedAt htime
    refine ⟨eventObject e created, ?_, Or.inr ⟨e, created, rfl, rfl, has, hlo, hhi⟩⟩
    show marshalEvent goTime e = _
    unfold marshalEvent
    rw [hc]

theorem marshalElems_representable (es : List (Option GitLabEvent))
    (h : ∀ e, some e ∈ es → e.representable = true) :
    ∃ js, marshalElems goTime es = .ok js ∧ List.Forall₂ (ElemAs goTime) es js := by
  induction es with
  | nil => exact ⟨[], rfl, List.Forall₂.nil⟩
  | cons elem es ih =>
    obtain ⟨j, hj, hja⟩ := marshalElem_representable elem
      (fun e he => h e (by rw [he]; exact List.mem_cons_self _ _))
    obtain ⟨js, hjs, hjsa⟩ := ih (fun e he => h e (List.mem_cons_of_mem _ he))
    refine ⟨j :: js, ?_, List.Forall₂.cons hja hjsa⟩
    rw [marshalElems, hj]
    simp only []
    rw [hjs]

/-! ## Parsing the text of events -/

theorem parseValue_created (tc : TimeCodec) (fuel n d : Nat) (createdAt : Option Time)
    (created : JSON) (rest : List Char) (h : CreatedAs tc createdAt created) :
    parseValue (fuel + 1) n (' ' :: (created.indent d ++ rest)) = some (created, rest) := by
  rw [parseValue_space fuel n ' ' _ (by decide)]
  rcases h with ⟨_, rfl⟩ | ⟨t, body, _, rfl, hplain, _⟩
  · exact parseValue_null fuel n rest
  · show parseValue (fuel + 1) n ('"' :: ((body ++ ['"']) ++ rest)) = _
    rw [parseValue_string, List.append_assoc]
    show Option.map _ (scanString (body ++ '"' :: rest)) = _
    rw [scanString_plain body rest hplain]
    rfl

/-- The indented text of the object of an event, spelled out. -/
theorem eventObject_indent (e : GitLabEvent) (created : JSON) (d : Nat) (rest : List Char) :
    (eventObject e created).indent d ++ rest =
      '{' :: (newline (d + 1) ++ '"' :: (['i', 'd'] ++ '"' :: ':' :: ' ' ::
        (formatInt e.ID ++ ',' :: (newline (d + 1) ++ '"' ::
          ("action_name".toList ++ '"' :: ':' :: ' ' :: '"' ::
            (escapeString e.Action.toList ++ '"' :: ',' :: (newline (d + 1) ++ '"' ::
              ("target_title".toList ++ '"' :: ':' :: ' ' :: '"' ::
                (escapeString e.Target.toList ++ '"' :: ',' :: (newline (d + 1) ++ '"' ::
                  ("created_at".toList ++ '"' :: ':' :: ' ' ::
                    (created.indent (d + 1) ++ (newline d ++ '}' :: rest))))))))))))) := by
  simp only [eventObject, JSON.indent, indentMembers, List.append_assoc, List.cons_append,
    List.nil_append, List.singleton_append]

/-- The indented text of the object of an event parses as that object. -/
theorem parseValue_eventObject (tc : TimeCodec) (fuel n d : Nat) (e : GitLabEvent)
    (created : JSON) (rest : List Char) (hn : n < maxNestingDepth)
    (h : CreatedAs tc e.CreatedAt created) :
    parseValue (fuel + 6) n ((eventObject e created).indent d ++ rest) =
      some (eventObject e created, rest) := by
  rw [eventObject_indent, parseValue_object _ _ _ _ hn]
  rw [parseMembers_more (fuel + 4) (n + 1) ['i', 'd'] _ _ (JSON.num (formatInt e.ID)) (by decide)
    (by rw [parseValue_space (fuel + 3) (n + 1) ' ' _ (by decide), parseValue_formatInt])]
  rw [parseMembers_newline]
  rw [parseMembers_more (fuel + 3) (n + 1) "action_name".toList _ _
    (JSON.str (escapeString e.Action.toList)) (by decide)
    (by rw [parseValue_space (fuel + 2) (n + 1) ' ' _ (by decide), parseValue_string,
          scanString_escapeString]; rfl)]
  rw [parseMembers_newline]
  rw [parseMembers_more (fuel + 2) (n + 1) "target_title".toList _ _
    (JSON.str (escapeString e.Target.toList)) (by decide)
    (by rw [parseValue_space (fuel + 1) (n + 1) ' ' _ (by decide), parseValue_string,
          scanString_escapeString]; rfl)]
  rw [parseMembers_newline]
  rw [parseMembers_last (fuel + 1) (n + 1) d "created_at".toList _ rest created (by decide)
    (parseValue_created tc fuel (n + 1) (d + 1) e.CreatedAt created _ h)]
  rfl

/-- The indented text of an element parses as that element. -/
theorem parseValue_elem (tc : TimeCodec) (fuel n d : Nat) (elem : Option GitLabEvent) (j : JSON)
    (rest : List Char) (hn : n < maxNestingDepth) (h : ElemAs tc elem j) :
    parseValue (fuel + 6) n (j.indent d ++ rest) = some (j, rest) := by
  rcases h with ⟨_, rfl⟩ | ⟨e, created, _, rfl, hc, _, _⟩
  · exact parseValue_null (fuel + 5) n rest
  · exact parseValue_eventObject tc fuel n d e created rest hn hc

/-- The text of an element starts with a character that is neither white space
nor a closing bracket. -/
theorem elem_indent_head (tc : TimeCodec) (d : Nat) (elem : Option GitLabEvent) (j : JSON)
    (h : ElemAs tc elem j) :
    ∃ c tl, j.indent d = c :: tl ∧ isSpace c = false ∧ c ≠ ']' := by
  rcases h with ⟨_, rfl⟩ | ⟨e, created, _, rfl, _, _, _⟩
  · exact ⟨'n', ['u', 'l', 'l'], rfl, by decide, by decide⟩
  · have hi := eventObject_indent e created d []
    rw [List.append_nil] at hi
    exact ⟨'{', _, hi, by decide, by decide⟩

theorem parseElems_newline (fuel n d : Nat) (rest : List Char) :
    parseElems (fuel + 2) n (newline d ++ rest) = parseElems (fuel + 2) n rest := by
  rw [parseElems, parseElems, parseValue_newline]

/-- The indented text of the elements of an array, up to the closing bracket,
parses as these elements. -/
theorem parseElems_elems (tc : TimeCodec) (n d : Nat) (rest : List Char)
    (hn : n < maxNestingDepth) :
    ∀ (es : List (Option GitLabEvent)) (js : List JSON) (fuel : Nat),
      List.Forall₂ (ElemAs tc) es js → js ≠ [] →
      parseElems (fuel + js.length + 6) n (indentElems (d + 1) js ++ (newline d ++ ']' :: rest)) =
        some (js, rest) := by
  intro es js fuel h
  induction h generalizing fuel with
  | nil => intro hne; exact absurd rfl hne
  | @cons elem j es js hj hjs ih =>
    intro _
    cases hjs with
    | nil =>
      show parseElems (fuel + 6 + 1) n (j.indent (d + 1) ++ (newline d ++ ']' :: rest)) = _
      rw [parseElems, parseValue_elem tc fuel n (d + 1) elem j _ hn hj]
      simp only []
      rw [skipSpace_newline d ']' rest (by decide)]
      simp only []
      rw [if_neg (by decide), if_pos (by first | rfl | trivial)]
    | @cons elem2 j2 es2 js2 hj2 hjs2 =>
      have hrec := ih fuel (List.cons_ne_nil _ _)
      show parseElems (fuel + (js2.length + 1) + 6 + 1) n
        ((j.indent (d + 1) ++ ',' :: newline (d + 1) ++ indentElems (d + 1) (j2 :: js2)) ++
          (newline d ++ ']' :: rest)) = _
      have hfuel : fuel + (js2.length + 1) + 6 = (fuel + (js2.length + 1)) + 6 := rfl
      rw [parseElems, List.append_assoc, List.append_assoc,
        parseValue_elem tc (fuel + (js2.length + 1)) n (d + 1) elem j _ hn hj]
      simp only []
      rw [List.cons_append, skipSpace_cons_of_not_space _ _ (by decide)]
      simp only []
      rw [if_pos (by first | rfl | trivial)]
      have hshape : fuel + (js2.length + 1) + 6 = (fuel + js2.length + 5) + 2 := by omega
      rw [hshape, parseElems_newline, ← hshape]
      have hlen : (j2 :: js2).length = js2.length + 1 := rfl
      rw [hlen] at hrec
      rw [hrec]
      rfl

/-! ## Decoding the parsed events -/

theorem string_mk_toList (s : String) : String.mk s.toList = s := by
  cases s
  rfl

theorem setField_id (tc : TimeCodec) (e : GitLabEvent) (i : Int) (hlo : minInt64 ≤ i)
    (hhi : i ≤ maxInt64) :
    setField tc e ['i', 'd'] (JSON.num (formatInt i)) = some { e with ID := i } := by
  unfold setField
  rw [if_pos (by decide)]
  simp only []
  rw [parseInt64_formatInt i hlo hhi]
  rfl

theorem setField_action (tc : TimeCodec) (e : GitLabEvent) (s : String) :
    setField tc e "action_name".toList (JSON.str (escapeString s.toList)) =
      some { e with Action := s } := by
  unfold setField
  rw [if_neg (by decide), if_pos (by decide)]
  simp only []
  rw [unquote_escapeString, Option.map_some', string_mk_toList]

theorem setField_target (tc : TimeCodec) (e : GitLabEvent) (s : String) :
    setField tc e "target_title".toList (JSON.str (escapeString s.toList)) =
      some { e with Target := s } := by
  unfold setField
  rw [if_neg (by decide), if_neg (by decide), if_pos (by decide)]
  simp only []
  rw [unquote_escapeString, Option.map_some', string_mk_toList]

theorem setField_created (tc : TimeCodec) (e : GitLabEvent) (createdAt : Option Time)
    (created : JSON) (h : CreatedAs tc createdAt created) :
    setField tc e "created_at".toList created = some { e with CreatedAt := createdAt } := by
  unfold setField
  rw [if_neg (by decide), if_neg (by decide), if_neg (by decide), if_pos (by decide)]
  rcases h with ⟨rfl, rfl⟩ | ⟨t, body, rfl, rfl, _, hu⟩
  · rfl
  · simp only []
    have hc : (JSON.str body).compact = '"' :: body ++ ['"'] := by
      simp only [JSON.compact]
    rw [hc, hu]

/-- The object of an event decodes to the event. -/
theorem decodeElem_elem (tc : TimeCodec) (elem : Option GitLabEvent) (j : JSON)
    (h : ElemAs tc elem j) : decodeElem tc j = some elem := by
  rcases h with ⟨rfl, rfl⟩ | ⟨e, created, rfl, rfl, hc, hlo, hhi⟩
  · rfl
  · have hid : unquote ['i', 'd'] = some ['i', 'd'] := by decide
    have hact : unquote "action_name".toList = some "action_name".toList := by decide
    have htar : unquote "target_title".toList = some "target_title".toList := by decide
    have hcre : unquote "created_at".toList = some "created_at".toList := by decide
    unfold eventObject decodeElem
    simp only [decodeMembers, hid, hact, htar, hcre, setField_id tc _ e.ID hlo hhi,
      setField_action, setField_target, setField_created tc _ e.CreatedAt created hc,
      Option.map_some']

theorem decodeElems_elems (tc : TimeCodec) (es : List (Option GitLabEvent)) (js : List JSON)
    (h : List.Forall₂ (ElemAs tc) es js) : decodeElems tc js = some es := by
  induction h with
  | nil => rfl
  | @cons elem j es js hj _ ih =>
    rw [decodeElems, decodeElem_elem tc elem j hj]
    simp only []
    rw [ih]

theorem indentElems_length (tc : TimeCodec) (d : Nat) (es : List (Option GitLabEvent))
    (js : List JSON) (h : List.Forall₂ (ElemAs tc) es js) :
    js.length ≤ (indentElems d js).length := by
  induction h with
  | nil => exact Nat.le_refl _
  | @cons elem j es js hj hjs ih =>
    obtain ⟨c, tl, hc, _, _⟩ := elem_indent_head tc d elem j hj
    cases hjs with
    | nil =>
      show 1 ≤ (j.indent d).length
      rw [hc]
      simp
    | @cons elem2 j2 es2 js2 hj2 hjs2 =>
      show (j2 :: js2).length + 1 ≤
        (j.indent d ++ ',' :: newline d ++ indentElems d (j2 :: js2)).length
      rw [hc]
      simp only [List.length_append, List.length_cons] at ih ⊢
      omega

/-- The indented text of a slice of representable events parses and decodes to
the slice. -/
theorem jsonUnmarshal_indent (tc : TimeCodec) (es : List (Option GitLabEvent))
    (js : List JSON) (h : List.Forall₂ (ElemAs tc) es js) :
    jsonUnmarshal tc ((JSON.arr js).indent 0) = .ok (some es) := by
  cases h with
  | nil => rfl
  | @cons elem j es js hj hjs =>
    have hall : List.Forall₂ (ElemAs tc) (elem :: es) (j :: js) := List.Forall₂.cons hj hjs
    have hlen := indentElems_length tc 1 (elem :: es) (j :: js) hall
    obtain ⟨c, tl, hc, hs, hb⟩ : ∃ c tl, indentElems 1 (j :: js) = c :: tl ∧
        isSpace c = false ∧ c ≠ ']' := by
      obtain ⟨c, tl, hc, hs, hb⟩ := elem_indent_head tc 1 elem j hj
      cases js with
      | nil => exact ⟨c, tl, hc, hs, hb⟩
      | cons j2 js2 =>
        refine ⟨c, tl ++ ',' :: newline 1 ++ indentElems 1 (j2 :: js2), ?_, hs, hb⟩
        show j.indent 1 ++ ',' :: newline 1 ++ indentElems 1 (j2 :: js2) = _
        rw [hc]
        rfl
    have htext : (JSON.arr (j :: js)).indent 0 =
        '[' :: (newline 1 ++ (indentElems 1 (j :: js) ++ (newline 0 ++ [']']))) := by
      simp only [JSON.indent, List.append_assoc, List.cons_append, List.nil_append]
    have hparse : parseJSON ((JSON.arr (j :: js)).indent 0) = some (JSON.arr (j :: js)) := by
      unfold parseJSON
      obtain ⟨g, hg⟩ : ∃ g, 2 * ((JSON.arr (j :: js)).indent 0).length + 2 =
          (g + (j :: js).length + 6) + 1 := by
        refine ⟨2 * ((JSON.arr (j :: js)).indent 0).length + 2 - ((j :: js).length + 7), ?_⟩
        rw [htext]
        simp only [List.length_cons, List.length_append, newline, List.length_replicate,
          List.length_nil] at hlen ⊢
        omega
      have helems := parseElems_elems tc 1 0 [] (by decide) (elem :: es) (j :: js) g hall
        (List.cons_ne_nil _ _)
      rw [hc, List.cons_append] at helems
      rw [hg, htext, hc, List.cons_append, parseValue_array _ 0 1 c _ (by decide) hs hb, helems]
      rfl
    unfold jsonUnmarshal
    rw [hparse]
    simp only [decodeEvents, decodeElems_elems tc (elem :: es) (j :: js) hall, Option.map_some']

/-! ## The persistence round trip -/

/-- C5 fails as stated.  The slice `lateEvents` has one event, with a time in
the year 10000.  `saveEventsToFile` does not write it: `json.MarshalIndent`
fails on the time, the function returns that error, and no file is written,
so there is nothing to parse back. -/
theorem save_fails_on_late_events :
    (saveEventsToFile sampleWorld lateEvents "events.json").value =
      some ("json: error calling MarshalJSON for type *time.Time: " ++
        "Time.MarshalJSON: year outside of range [0,9999]") ∧
    (saveEventsToFile sampleWorld lateEvents "events.json").trace =
      [Effect.call (Call.saveEventsToFile lateEvents "events.json")] := by
  refine ⟨by decide, by decide⟩

/-- C5, amended.  Let `events` be a slice whose times, where an event has one,
have a year from 0 to 9999 and a zone offset of whole minutes below 24 hours
(`Events.representable`, which also says that each event is a value of its Go
type: the `ID` a Go `int`, the time a date and a clock reading that exist).
With the text form Go gives a `time.Time`, `json.MarshalIndent` succeeds on
`events`, `saveEventsToFile` writes the text it returns under the given name
and returns what the write returns, and that text, read the way file mode
reads it (`json.Unmarshal` into a nil `[]*GitLabEvent`), decodes without error
to `events` itself: same length, same order, nil pointers and nil slice kept,
and equal `id`, `action`, `target` and `created_at` in every event.  A run in
file mode that reads this text from its events file, past the configuration and
date checks, goes on to summarize exactly `events`. -/
theorem persistence_round_trip (w : World) (events : Events) (filename : String)
    (hcodec : w.time = goTime) (h : events.representable = true) :
    ∃ data,
      jsonMarshalIndent goTime events = .ok data ∧
      (saveEventsToFile w events filename).trace =
        [Effect.call (Call.saveEventsToFile events filename),
         Effect.writeFile filename (String.mk data)] ∧
      (saveEventsToFile w events filename).value = w.writeFile filename (String.mk data) ∧
      jsonUnmarshal goTime (String.mk data).toList = .ok events ∧
      ∀ (later : World) (f : Flags) (fuel : Nat) (startDate endDate : ISOTime),
        later.time = goTime →
        later.readFile f.eventsFile = .ok (String.mk data) →
        f.eventsFile ≠ "" →
        later.gitlabToken ≠ "" → later.openaiAPIKey ≠ "" → later.gitlabDomain ≠ "" →
        hasPrefix later.gitlabDomain "http" = true →
        later.parseISOTime f.startDateStr = .ok startDate →
        later.parseISOTime f.endDateStr = .ok endDate →
        main later f fuel = summarizeAndPrint later f (fileModeStart f) events := by
  have hround : ∃ data, jsonMarshalIndent goTime events = .ok data ∧
      jsonUnmarshal goTime data = .ok events := by
    cases events with
    | none => exact ⟨['n', 'u', 'l', 'l'], rfl, rfl⟩
    | some es =>
      obtain ⟨js, hjs, hall⟩ := marshalElems_representable es
        (fun e he => by
          simp only [Events.representable, List.all_eq_true] at h
          exact h (some e) he)
      refine ⟨(JSON.arr js).indent 0, ?_, jsonUnmarshal_indent goTime es js hall⟩
      unfold jsonMarshalIndent marshalEvents
      simp only [hjs]
  obtain ⟨data, hdata, hback⟩ := hround
  refine ⟨data, hdata, ?_, ?_, hback, ?_⟩
  · unfold saveEventsToFile
    rw [hcodec, hdata]
  · unfold saveEventsToFile
    rw [hcodec, hdata]
  · intro later f fuel startDate endDate htime hread hfile h1 h2 h3 h4 hs he
    have hback2 : jsonUnmarshal later.time (String.mk data).toList = .ok events := by
      rw [htime]; exact hback
    unfold main
    rw [if_neg (by simp [h1, h2, h3]), if_neg (by simp [h4])]
    simp only [hs, he, hread, hback2, if_pos hfile, fileModeStart]

set_option maxRecDepth 8000 in
/-- C5 as amended, at the sample slice: the text that is written, and that it
reads back as the slice. -/
theorem persistence_round_trip_sample :
    jsonMarshalIndent goTime sampleEvents = .ok sampleEventsText.toList ∧
      jsonUnmarshal goTime sampleEventsText.toList = .ok sampleEvents :=
  match persistence_round_trip sampleWorld sampleEvents "events.json" rfl (by decide) with
  | ⟨data, h1, _, _, h4, _⟩ =>
    have htext : data = sampleEventsText.toList :=
      Option.some.inj ((congrArg Except.toOption h1).symm.trans (by decide))
    ⟨htext ▸ h1, htext ▸ h4⟩

end Wrought
